import Mathlib

/-!
# go-backend: signature gate, amount codec and transaction lifecycle

A shallow embedding of the payment backend:

* `internal/delivery/http/middleware.go` : `SignatureMiddleware`
* `internal/delivery/http/handler.go`    : `parseAmountToMinor`, `formatMinorToString`,
  `twoDigits`, the error mapping of `Handler.PaymentCallback`
* `internal/repository/sqlite_repo.go`   : `InsertTransaction`, `GetByReferenceNo`,
  `scanTx`, `UpdatePaymentStatus`
* `internal/usecase/qr.go`               : `GenerateQR`, `PaymentCallback`

Conventions.  Go `string` and `[]byte` values are Lean `String`s (one `Char` per byte, the
grammars involved are ASCII).  Go `int64` values are mathematical integers of type `Int`;
every place where the Go code computes with `int64` and may overflow goes through
`wrapInt64`.  The clock (`time.Now()`), the random source (`uuid.New()`) and HMAC-SHA256 are
explicit arguments.  The SQLite table is a list of rows in insertion order, whose timestamp
columns hold the text the repository writes and parses back.
-/

namespace GoBackend

deriving instance DecidableEq for Except

/-! ## Machine integers -/

/-- Smallest `int64`. -/
def minInt64 : Int := -(2 ^ 63)

/-- Largest `int64`. -/
def maxInt64 : Int := 2 ^ 63 - 1

/-- Two's-complement reduction of a mathematical integer to the `int64` range: the value an
`int64` variable holds after an operation whose exact result is `i`. -/
def wrapInt64 (i : Int) : Int := (i + 2 ^ 63) % 2 ^ 64 - 2 ^ 63

/-! ## `strconv` -/

/-- Value of an ASCII decimal digit, `none` for any other character. -/
def digitVal (c : Char) : Option Nat :=
  if 48 ≤ c.toNat ∧ c.toNat ≤ 57 then some (c.toNat - 48) else none

/-- The digit loop of `strconv.ParseUint(s, 10, 64)`: every character must be a decimal
digit (underscores are only legal with base 0).  The exact value is returned; the caller
performs the range check. -/
def parseDigits : List Char → Nat → Option Nat
  | [], acc => some acc
  | c :: cs, acc =>
    match digitVal c with
    | some d => parseDigits cs (acc * 10 + d)
    | none => none

/-- `strconv.ParseInt(s, 10, 64)`: `none` stands for `err != nil` (syntax or range error),
`some n` for `(n, nil)`. -/
def ParseInt (s : String) : Option Int :=
  match s.toList with
  | [] => none
  | c :: cs =>
    let neg : Bool := c = '-'
    let rest := if c = '+' ∨ c = '-' then cs else c :: cs
    if rest = [] then none
    else
      match parseDigits rest 0 with
      | none => none
      | some un =>
        if !neg && decide (un ≥ 2 ^ 63) then none
        else if neg && decide (un > 2 ^ 63) then none
        else some (if neg then -(un : Int) else (un : Int))

/-- `strconv.FormatInt(i, 10)` and `strconv.Itoa`. -/
def FormatInt (i : Int) : String :=
  if i < 0 then "-" ++ Nat.repr i.natAbs else Nat.repr i.natAbs

/-- An ASCII decimal digit. -/
def isDigit (c : Char) : Prop := 48 ≤ c.toNat ∧ c.toNat ≤ 57

instance : DecidablePred isDigit := fun c => by
  unfold isDigit
  infer_instance

/-- The number written by a string of decimal digits, most significant digit first. -/
def digitsValue (ds : List Char) : Nat :=
  ds.foldl (fun acc c => acc * 10 + (c.toNat - 48)) 0

/-! ## `encoding/hex` -/

/-- A byte. -/
abbrev Byte := Fin 256

/-- The digit table of `encoding/hex`. -/
def hextable : List Char := "0123456789abcdef".toList

/-- `hex.EncodeToString`: two lowercase hexadecimal digits per byte, high nibble first. -/
def EncodeToString (src : List Byte) : String :=
  String.mk (src.flatMap fun v => [hextable.getD (v.val / 16) '0', hextable.getD (v.val % 16) '0'])

/-! ## `middleware.go` -/

/-- The Go struct `SigConfig`. -/
structure SigConfig where
  Secret : String
  MaxAgeSeconds : Int

/-- The part of `*http.Request` the middleware looks at.  `XTimestamp` and `XSignature` are
`r.Header.Get(..)`, the empty string when the header is absent.  `Body` is what
`io.ReadAll(r.Body)` yields: `none` when the read fails. -/
structure Request where
  Method : String
  XTimestamp : String
  XSignature : String
  Body : Option String
deriving DecidableEq, Repr

/-- What the middleware does with a request: hand it to the downstream handler
(`next.ServeHTTP(w, r)`) or answer with `http.Error(w, msg, code)`. -/
inductive Outcome where
  | next (r : Request)
  | httpError (msg : String) (code : Nat)
deriving DecidableEq, Repr

/-- `SignatureMiddleware(cfg)(next)` applied to request `r` at Unix time `now`.
`hmacSha256 key msg` stands for `hmac.New(sha256.New, key)`, `Write(msg)`, `Sum(nil)`. -/
def SignatureMiddleware (hmacSha256 : String → String → List Byte) (cfg : SigConfig)
    (now : Int) (r : Request) : Outcome :=
  if r.Method = "POST" ∨ r.Method = "PUT" ∨ r.Method = "PATCH" then
    let ts := r.XTimestamp
    let sig := r.XSignature
    if ts = "" ∨ sig = "" then .httpError "missing signature headers" 401
    else
      match ParseInt ts with
      | none => .httpError "invalid timestamp" 401
      | some tsInt =>
        if cfg.MaxAgeSeconds > 0 ∧ wrapInt64 (now - tsInt) > cfg.MaxAgeSeconds then
          .httpError "signature expired" 401
        else
          match r.Body with
          | none => .httpError "read body error" 400
          | some bodyBytes =>
            let expected := EncodeToString (hmacSha256 cfg.Secret (bodyBytes ++ ("." ++ ts)))
            if ¬ expected = sig then .httpError "invalid signature" 401
            else .next { r with Body := some bodyBytes }
  else .next r

/-! ## `math/big`

`big.Int` values are Lean integers.  A `big.Rat` is a numerator and a positive denominator.
The scanner below follows `nat.scan`, `scanExponent`, `Int.SetString` and `Rat.SetString`
of the Go standard library, specialised to the arguments used here (`base == 0`,
`base2ok == sepOk == true`); the limb-wise accumulation of digits is replaced by exact
arithmetic on `Nat`. -/

/-- A `big.Rat`: numerator `a` and denominator `b`. -/
structure BigRat where
  num : Int
  den : Nat
deriving DecidableEq, Repr

/-- `Rat.norm`: zero becomes `0/1`, any other fraction is reduced by the gcd of the
absolute values, the sign staying on the numerator. -/
def BigRat.norm (a : Int) (b : Nat) : BigRat :=
  if a = 0 then ⟨0, 1⟩
  else
    let f := Nat.gcd a.natAbs b
    ⟨Int.tdiv a f, b / f⟩

/-- `Rat.Mul`: multiply numerators and denominators, then normalise. -/
def BigRat.Mul (x y : BigRat) : BigRat :=
  BigRat.norm (x.num * y.num) (x.den * y.den)

/-- `Int.Div`: `QuoRem` (truncated quotient and remainder), then the quotient is adjusted
by one when the remainder is negative, which makes the division Euclidean. -/
def bigDiv (x y : Int) : Int :=
  let q := Int.tdiv x y
  let r := Int.tmod x y
  if r < 0 then (if y < 0 then q + 1 else q - 1) else q

/-- `Int.Int64`: the low 64 bits of the absolute value, read as an `int64`, negated (as an
`int64`) when the number is negative. -/
def bigInt64 (x : Int) : Int :=
  let v := wrapInt64 ((x.natAbs % 2 ^ 64 : Nat) : Int)
  if x < 0 then wrapInt64 (-v) else v

/-- `scanSign`: `none` when the reader is already at its end. -/
def scanSign : List Char → Option (Bool × List Char)
  | [] => none
  | c :: cs => if c = '-' then some (true, cs) else if c = '+' then some (false, cs)
    else some (false, c :: cs)

/-- The class of the previously read character in the scanners: `'.'` (anything else),
`'0'` (a digit) or `'_'` (a separator). -/
inductive Prev where
  | other
  | digit
  | sep
deriving DecidableEq, Repr

/-- The loop variables of `nat.scan`. -/
structure ScanState where
  z : Nat
  count : Nat
  dp : Option Nat
  prev : Prev
  invalSep : Bool
  fracOk : Bool
deriving DecidableEq, Repr

/-- Digit value `d1` of a character in `nat.scan` for a base of at most 36:
`'0'..'9'`, `'a'..'z'`, `'A'..'Z'`, and `MaxBase + 1 = 63` for everything else. -/
def scanDigit (ch : Char) : Nat :=
  if 48 ≤ ch.toNat ∧ ch.toNat ≤ 57 then ch.toNat - 48
  else if 97 ≤ ch.toNat ∧ ch.toNat ≤ 122 then ch.toNat - 97 + 10
  else if 65 ≤ ch.toNat ∧ ch.toNat ≤ 90 then ch.toNat - 65 + 10
  else 63

/-- The `for err == nil` loop of `nat.scan` with `base == 0` and actual base `b`.  It stops
at the end of the input or at the first character that is not part of the number, which is
left unread; the unread input is returned with the state. -/
def scanLoop (b : Nat) : ScanState → List Char → ScanState × List Char
  | st, [] => (st, [])
  | st, ch :: rest =>
    if ch = '.' ∧ st.fracOk = true then
      scanLoop b { st with
        fracOk := false
        invalSep := st.invalSep || decide (st.prev = .sep)
        prev := .other
        dp := some st.count } rest
    else if ch = '_' then
      scanLoop b { st with
        invalSep := st.invalSep || decide (st.prev ≠ .digit)
        prev := .sep } rest
    else
      let d1 := scanDigit ch
      if d1 ≥ b then (st, ch :: rest)
      else scanLoop b { st with prev := .digit, count := st.count + 1, z := st.z * b + d1 } rest

/-- The base-prefix kinds of `nat.scan`: none, the bare octal `0`, or `0b`, `0o`, `0x`. -/
inductive BasePrefix where
  | noPrefix
  | zero
  | letter
deriving DecidableEq, Repr

/-- The first part of `nat.scan` with `base == 0`: the actual base, the prefix kind, the
loop state and the input at which the loop starts. -/
def scanStart (fracOk : Bool) (s : List Char) : Nat × BasePrefix × ScanState × List Char :=
  let init : ScanState :=
    { z := 0, count := 0, dp := none, prev := .other, invalSep := false, fracOk := fracOk }
  match s with
  | [] => (10, .noPrefix, init, [])
  | c :: t =>
    if c = '0' then
      match t with
      | [] => (10, .noPrefix, { init with prev := .digit, count := 1 }, [])
      | ch :: rest =>
        if ch = 'b' ∨ ch = 'B' then (2, .letter, { init with prev := .digit }, rest)
        else if ch = 'o' ∨ ch = 'O' then (8, .letter, { init with prev := .digit }, rest)
        else if ch = 'x' ∨ ch = 'X' then (16, .letter, { init with prev := .digit }, rest)
        else if fracOk then (10, .noPrefix, { init with prev := .digit, count := 1 }, ch :: rest)
        else (8, .zero, { init with prev := .digit }, ch :: rest)
    else (10, .noPrefix, init, c :: t)

/-- `nat.scan(r, 0, fracOk)`: on success the value, the actual base, the digit count (or,
when a radix point was seen, minus the number of fractional digits) and the unread input. -/
def natScan (fracOk : Bool) (s : List Char) : Option (Nat × Nat × Int × List Char) :=
  match scanStart fracOk s with
  | (b, pre, st0, s0) =>
    match scanLoop b st0 s0 with
    | (st, rest) =>
      let sepErr : Bool := st.invalSep || decide (st.prev = .sep)
      if st.count = 0 then
        if pre = .zero then (if sepErr then none else some (0, 10, 1, rest))
        else none
      else if sepErr then none
      else
        let count : Int := match st.dp with
          | some dp => (dp : Int) - (st.count : Int)
          | none => (st.count : Int)
        some (st.z, b, count, rest)

/-- The loop variables of `scanExponent`: the collected digits (most recent first), `prev`,
`invalSep` and `hasDigits`. -/
structure ExpState where
  digits : List Char
  prev : Prev
  invalSep : Bool
  hasDigits : Bool
deriving DecidableEq, Repr

/-- The digit loop of `scanExponent` with `sepOk == true`. -/
def expLoop : ExpState → List Char → ExpState × List Char
  | st, [] => (st, [])
  | st, ch :: rest =>
    if 48 ≤ ch.toNat ∧ ch.toNat ≤ 57 then
      expLoop { st with digits := ch :: st.digits, prev := .digit, hasDigits := true } rest
    else if ch = '_' then
      expLoop { st with invalSep := st.invalSep || decide (st.prev ≠ .digit), prev := .sep } rest
    else (st, ch :: rest)

/-- `scanExponent(r, true, true)`: on success the exponent, its base (10 for `e`, 2 for `p`)
and the unread input. -/
def scanExponent (s : List Char) : Option (Int × Nat × List Char) :=
  match s with
  | [] => some (0, 10, [])
  | ch :: rest =>
    if ch = 'e' ∨ ch = 'E' ∨ ch = 'p' ∨ ch = 'P' then
      let base : Nat := if ch = 'e' ∨ ch = 'E' then 10 else 2
      let signed : Bool × List Char := match rest with
        | [] => (false, [])
        | c :: cs => if c = '-' then (true, cs) else if c = '+' then (false, cs)
          else (false, c :: cs)
      match expLoop { digits := [], prev := .other, invalSep := false, hasDigits := false }
          signed.2 with
      | (st, rest') =>
        if st.hasDigits = false then none
        else
          match ParseInt (String.mk ((if signed.1 then ['-'] else []) ++ st.digits.reverse)) with
          | none => none
          | some exp =>
            if st.invalSep || decide (st.prev = .sep) then none else some (exp, base, rest')
    else some (0, 10, ch :: rest)

/-- `Int.SetString(s, 0)`: sign, `nat.scan(r, 0, false)`, and the whole string consumed. -/
def IntSetString (s : List Char) : Option Int :=
  match scanSign s with
  | none => none
  | some (neg, s1) =>
    match natScan false s1 with
    | none => none
    | some (abs, _, _, rest) =>
      if rest ≠ [] then none else some (if neg then -(abs : Int) else (abs : Int))

/-- `strings.Index(s, "/")`, as the text before and after the first slash. -/
def cutSlash : List Char → Option (List Char × List Char)
  | [] => none
  | c :: cs =>
    if c = '/' then some ([], cs) else (cutSlash cs).map fun p => (c :: p.1, p.2)

/-- The exponents of 2 and of 5 that the radix point contributes in `Rat.SetString`
(`switch base`), as the pair `(exp2, exp5)`; `fcount` is negative exactly when there are
fractional digits. -/
def radixExponents (base : Nat) (fcount : Int) : Int × Int :=
  if fcount < 0 then
    let d := fcount
    if base = 10 then (d, d)
    else if base = 2 then (d, 0)
    else if base = 8 then (wrapInt64 (d * 3), 0)
    else (wrapInt64 (d * 4), 0)
  else (0, 0)

/-- The exponent proper is added (`switch ebase`, `int64` additions): a decimal exponent to
both powers, a binary exponent to the power of 2 only. -/
def addExponent (e : Int × Int) (exp : Int) (ebase : Nat) : Int × Int :=
  if ebase = 10 then (wrapInt64 (e.1 + exp), wrapInt64 (e.2 + exp))
  else (wrapInt64 (e.1 + exp), e.2)

/-- "apply exp5 contributions" in `Rat.SetString`: numerator and denominator after the
power of 5; a magnitude above `1e6` is refused. -/
def applyPow5 (abs : Nat) (exp5 : Int) : Option (Nat × Nat) :=
  if exp5 ≠ 0 then
    let n : Int := if exp5 < 0 then wrapInt64 (-exp5) else exp5
    if n < 0 then none
    else if n > 1000000 then none
    else if exp5 > 0 then some (abs * 5 ^ n.toNat, 1)
    else some (abs, 5 ^ n.toNat)
  else some (abs, 1)

/-- "apply exp2 contributions" in `Rat.SetString`: a magnitude above `1e7` is refused,
otherwise numerator or denominator is shifted left. -/
def applyPow2 (a b : Nat) (exp2 : Int) : Option (Nat × Nat) :=
  if exp2 < -10000000 ∨ exp2 > 10000000 then none
  else if exp2 > 0 then some (a <<< exp2.toNat, b)
  else if exp2 < 0 then some (a, b <<< (-exp2).toNat)
  else some (a, b)

/-- The last part of `Rat.SetString` for a nonzero mantissa `abs`: the radix point and the
exponent are split into powers of 2 and of 5, which are then applied to numerator or
denominator. -/
def applyExponents (abs : Nat) (base : Nat) (fcount : Int) (exp : Int) (ebase : Nat) :
    Option (Nat × Nat) :=
  let e := addExponent (radixExponents base fcount) exp ebase
  match applyPow5 abs e.2 with
  | none => none
  | some (a, b) => applyPow2 a b e.1

/-- `(*big.Rat).SetString` on a fresh `Rat`: `none` stands for `ok == false`. -/
def RatSetString (s : String) : Option BigRat :=
  let cs := s.toList
  if cs = [] then none
  else
    match cutSlash cs with
    | some (numStr, denStr) =>
      match IntSetString numStr with
      | none => none
      | some a =>
        match natScan false denStr with
        | none => none
        | some (b, _, _, rest) =>
          if rest ≠ [] then none
          else if b = 0 then none
          else some (BigRat.norm a b)
    | none =>
      match scanSign cs with
      | none => none
      | some (neg, cs1) =>
        match natScan true cs1 with
        | none => none
        | some (abs, base, fcount, cs2) =>
          match scanExponent cs2 with
          | none => none
          | some (exp, ebase, cs3) =>
            if cs3 ≠ [] then none
            else if abs = 0 then some (BigRat.norm 0 1)
            else
              match applyExponents abs base fcount exp ebase with
              | none => none
              | some (a, b) => some (BigRat.norm (if neg then -(a : Int) else (a : Int)) b)

/-! ## `handler.go`: the amount codec -/

/-- The Go struct `apiErr`. -/
structure apiErr where
  Status : Nat
  Msg : String
deriving DecidableEq, Repr

/-- The Go variable `ErrBadAmount`. -/
def ErrBadAmount : apiErr := { Status := 400, Msg := "invalid amount format" }

/-- The Go function `parseAmountToMinor`. -/
def parseAmountToMinor (value : String) : Except apiErr Int :=
  match RatSetString value with
  | none => .error ErrBadAmount
  | some r =>
    let r := r.Mul ⟨100, 1⟩
    let i := bigDiv r.num r.den
    .ok (bigInt64 i)

/-! ## `handler.go`: rendering of minor units -/

/-- The Go function `twoDigits`. -/
def twoDigits (n : Int) : String :=
  if n < 10 then "0" ++ FormatInt n else FormatInt n

/-- The Go function `formatMinorToString`.  `-minor` is an `int64` negation; `/` and `%`
are Go's truncated division and remainder. -/
def formatMinorToString (minor : Int) : String :=
  let sign := if minor < 0 then "-" else ""
  let minor := if minor < 0 then wrapInt64 (-minor) else minor
  let intPart := Int.tdiv minor 100
  let decPart := Int.tmod minor 100
  sign ++ FormatInt intPart ++ "." ++ twoDigits decPart

/-! ## `time`

A `time.Time` is identified with the civil date and clock reading of its instant in UTC,
which is what `t.UTC()` presents; the location and the monotonic clock reading, on which
neither `UTC().Format` nor the comparison of instants depends, are left out.  `Format` and
`Parse` are modelled for the one layout the repository uses, `time.RFC3339Nano`
(`"2006-01-02T15:04:05.999999999Z07:00"`), after the Go standard library. -/

/-- A `time.Time`, as the UTC civil time of its instant. -/
structure Time where
  year : Int
  month : Nat
  day : Nat
  hour : Nat
  minute : Nat
  second : Nat
  nanosecond : Nat
deriving DecidableEq, Repr

/-- `Time.UTC`: the same instant presented in UTC, hence the identity on this
representation. -/
def Time.UTC (t : Time) : Time := t

/-- The Go function `isLeap`. -/
def isLeap (year : Int) : Bool :=
  decide (year % 4 = 0 ∧ (year % 100 ≠ 0 ∨ year % 400 = 0))

/-- The Go function `daysIn`: the number of days of month `m` in `year`. -/
def daysIn (m : Nat) (year : Int) : Nat :=
  if m = 2 ∧ isLeap year = true then 29
  else [31, 28, 31, 30, 31, 30, 31, 31, 30, 31, 30, 31].getD (m - 1) 0

/-- The representation invariant of `Time`, which every `time.Time` satisfies: the fields
are a date of the calendar and a clock reading. -/
def Time.Valid (t : Time) : Prop :=
  1 ≤ t.month ∧ t.month ≤ 12 ∧ 1 ≤ t.day ∧ t.day ≤ daysIn t.month t.year ∧
  t.hour < 24 ∧ t.minute < 60 ∧ t.second < 60 ∧ t.nanosecond < 1000000000

instance (t : Time) : Decidable t.Valid := by
  unfold Time.Valid
  infer_instance

/-- Days from 1970-01-01 to the given date of the proleptic Gregorian calendar (the
calendar of `time.Date`), by the usual arithmetic on 400-year eras with the year starting
in March. -/
def daysFromCivil (y : Int) (m d : Nat) : Int :=
  let y := if m ≤ 2 then y - 1 else y
  let era := y / 400
  let yoe := y % 400
  let mp : Int := if m > 2 then (m : Int) - 3 else (m : Int) + 9
  let doy := (153 * mp + 2) / 5 + (d : Int) - 1
  let doe := yoe * 365 + yoe / 4 - yoe / 100 + doy
  era * 146097 + doe - 719468

/-- The date of the proleptic Gregorian calendar that lies `z` days after 1970-01-01 (the
date computation of `Time.Date`), by the same era arithmetic. -/
def civilFromDays (z : Int) : Int × Nat × Nat :=
  let z := z + 719468
  let era := z / 146097
  let doe := z % 146097
  let yoe := (doe - doe / 1460 + doe / 36524 - doe / 146096) / 365
  let y := yoe + era * 400
  let doy := doe - (365 * yoe + yoe / 4 - yoe / 100)
  let mp := (5 * doy + 2) / 153
  let d := doy - (153 * mp + 2) / 5 + 1
  let m := if mp < 10 then mp + 3 else mp - 9
  (if m ≤ 2 then y + 1 else y, m.toNat, d.toNat)

/-- `Time.addSec` on a UTC time: the civil time `delta` seconds later. -/
def Time.addSec (t : Time) (delta : Int) : Time :=
  let s := daysFromCivil t.year t.month t.day * 86400
    + (t.hour : Int) * 3600 + (t.minute : Int) * 60 + (t.second : Int) + delta
  let date := civilFromDays (s / 86400)
  let sod := (s % 86400).toNat
  { year := date.1, month := date.2.1, day := date.2.2,
    hour := sod / 3600, minute := sod % 3600 / 60, second := sod % 60,
    nanosecond := t.nanosecond }

/-- The decimal digits of `n` in a field of exactly `width` characters, zero-padded. -/
def fixedDigits : Nat → Nat → List Char
  | 0, _ => []
  | width + 1, n => fixedDigits width (n / 10) ++ [Nat.digitChar (n % 10)]

/-- The Go function `appendInt`: a minus sign for a negative number, then the absolute
value in decimal, zero-padded to at least `width` digits. -/
def appendInt (x : Int) (width : Nat) : List Char :=
  (if x < 0 then ['-'] else []) ++
    (if x.natAbs < 10 ^ width then fixedDigits width x.natAbs else Nat.toDigits 10 x.natAbs)

/-- The Go function `appendNano` for the fraction `.999999999`: nothing for zero, otherwise
the point and the nine digits with trailing zeros removed. -/
def appendNano (nanosec : Nat) : List Char :=
  if nanosec = 0 then []
  else '.' :: ((appendInt (nanosec : Int) 9).reverse.dropWhile (fun c => c = '0')).reverse

/-- `t.Format(time.RFC3339Nano)` for a time in UTC. -/
def FormatRFC3339Nano (t : Time) : String :=
  String.mk (appendInt t.year 4 ++ '-' :: appendInt (t.month : Int) 2
    ++ '-' :: appendInt (t.day : Int) 2 ++ 'T' :: appendInt (t.hour : Int) 2
    ++ ':' :: appendInt (t.minute : Int) 2 ++ ':' :: appendInt (t.second : Int) 2
    ++ appendNano t.nanosecond ++ ['Z'])

/-- The Go function `skip` for a one-character literal of the layout. -/
def skip (c : Char) : List Char → Option (List Char)
  | [] => none
  | x :: rest => if x = c then some rest else none

/-- The Go function `getnum`: a number of one or two digits, of exactly two when `fixed`. -/
def getnum (s : List Char) (fixed : Bool) : Option (Nat × List Char) :=
  match s with
  | [] => none
  | c0 :: rest =>
    if ¬ isDigit c0 then none
    else
      match rest with
      | [] => if fixed then none else some (c0.toNat - 48, [])
      | c1 :: rest' =>
        if isDigit c1 then some ((c0.toNat - 48) * 10 + (c1.toNat - 48), rest')
        else if fixed then none
        else some (c0.toNat - 48, c1 :: rest')

/-- The chunk `2006` of `Parse`: exactly four characters are taken and must be digits. -/
def parseYear : List Char → Option (Nat × List Char)
  | a :: b :: c :: d :: rest =>
    if isDigit a ∧ isDigit b ∧ isDigit c ∧ isDigit d then some (digitsValue [a, b, c, d], rest)
    else none
  | _ => none

/-- The chunk `.999999999` of `Parse`: the fraction may be missing; otherwise a point or a
comma is followed by digits, all of which are consumed and the first nine of which count
(`parseNanoseconds`). -/
def parseFrac (s : List Char) : Nat × List Char :=
  match s with
  | sep :: c :: rest =>
    if (sep = '.' ∨ sep = ',') ∧ isDigit c then
      let ds := ((c :: rest).takeWhile fun x => decide (isDigit x)).take 9
      (digitsValue ds * 10 ^ (9 - ds.length), (c :: rest).dropWhile fun x => decide (isDigit x))
    else (0, s)
  | _ => (0, s)

/-- The chunk `Z07:00` of `Parse`: `Z`, or a sign and `hh:mm` with `hh ≤ 24` and
`mm ≤ 60`; the result is the offset in seconds east of UTC (`none` for `Z`). -/
def parseZone (s : List Char) : Option (Option Int × List Char) :=
  match s with
  | [] => none
  | z :: rest =>
    if z = 'Z' then some (none, rest)
    else
      match rest with
      | h1 :: h2 :: colon :: m1 :: m2 :: rest' =>
        if colon ≠ ':' then none
        else
          match getnum [h1, h2] true, getnum [m1, m2] true with
          | some (hr, _), some (mm, _) =>
            if hr > 24 ∨ mm > 60 then none
            else if z = '+' then some (some (((hr * 60 + mm) * 60 : Nat) : Int), rest')
            else if z = '-' then some (some (-(((hr * 60 + mm) * 60 : Nat) : Int)), rest')
            else none
          | _, _ => none
      | _ => none

/-- The clock part of `Parse`: `T15:04:05`, the optional fraction and the zone, with nothing
left over. -/
def parseClock (s : List Char) : Option (Nat × Nat × Nat × Nat × Option Int) :=
  match skip 'T' s with
  | none => none
  | some s =>
    match getnum s false with
    | none => none
    | some (hour, s) =>
      if 24 ≤ hour then none
      else
        match skip ':' s with
        | none => none
        | some s =>
          match getnum s true with
          | none => none
          | some (min, s) =>
            if 60 ≤ min then none
            else
              match skip ':' s with
              | none => none
              | some s =>
                match getnum s true with
                | none => none
                | some (sec, s) =>
                  if 60 ≤ sec then none
                  else
                    match parseZone (parseFrac s).2 with
                    | none => none
                    | some (zone, s') =>
                      if s' ≠ [] then none
                      else some (hour, min, sec, (parseFrac s).1, zone)

/-- The date part of `Parse`: `2006-01-02`, with the month in `1..12`; the day is validated
by the caller. -/
def parseDate (s : List Char) : Option (Nat × Nat × Nat × List Char) :=
  match parseYear s with
  | none => none
  | some (year, s) =>
    match skip '-' s with
    | none => none
    | some s =>
      match getnum s true with
      | none => none
      | some (month, s) =>
        if month = 0 ∨ 12 < month then none
        else
          match skip '-' s with
          | none => none
          | some s =>
            match getnum s true with
            | none => none
            | some (day, s) => some (year, month, day, s)

/-- `time.Parse(time.RFC3339Nano, value)`: `none` stands for `err != nil`.  The fields are
read, the day of the month is validated, and the time is `Date(.., UTC)`, moved by the zone
offset when the zone is not `Z`. -/
def ParseRFC3339Nano (value : String) : Option Time :=
  match parseDate value.toList with
  | none => none
  | some (year, month, day, s) =>
    match parseClock s with
    | none => none
    | some (hour, min, sec, nsec, zone) =>
      if day < 1 ∨ day > daysIn month (year : Int) then none
      else
        let t : Time :=
          { year := (year : Int), month := month, day := day, hour := hour, minute := min,
            second := sec, nanosecond := nsec }
        match zone with
        | none => some t
        | some offset => some (t.addSec (-offset))

/-! ## `domain/transaction.go` -/

/-- The Go type `TxStatus` is a string type. -/
abbrev TxStatus := String

def StatusCreated : TxStatus := "CREATED"
def StatusSuccess : TxStatus := "SUCCESS"
def StatusFailed : TxStatus := "FAILED"
def StatusPending : TxStatus := "PENDING"

/-- The Go struct `domain.Transaction`; a `nil` `PaidDate` is `none`. -/
structure Transaction where
  ID : Int
  ReferenceNo : String
  PartnerReferenceNo : String
  MerchantID : String
  AmountValueMinor : Int
  Currency : String
  Status : TxStatus
  TransactionDate : Time
  PaidDate : Option Time
deriving DecidableEq, Repr

/-! ## `sqlite_repo.go` -/

/-- The error values that travel from the repository to the HTTP boundary. -/
inductive Err where
  /-- `sql.ErrNoRows` of `database/sql`. -/
  | sqlErrNoRows
  /-- `repository.ErrNotFound`. -/
  | ErrNotFound
  /-- The engine's error for a violated `UNIQUE` constraint on `reference_no`. -/
  | uniqueConstraint
  /-- `fmt.Errorf("amount must be > 0")`. -/
  | amountNotPositive
  /-- `fmt.Errorf("parse tx time: %w", err)`. -/
  | parseTxTime
  /-- `fmt.Errorf("parse paid time: %w", err)`. -/
  | parsePaidTime
deriving DecidableEq, Repr

/-- A row of the table `transactions`, column by column; the two timestamps are `TEXT`,
and a `NULL` `paid_date` is `none`. -/
structure Row where
  id : Int
  reference_no : String
  partner_reference_no : String
  merchant_id : String
  amount_value_minor : Int
  currency : String
  status : String
  transaction_date : String
  paid_date : Option String
deriving DecidableEq, Repr

/-- The table `transactions`: its rows in insertion order, and the largest `id` handed out
so far (`AUTOINCREMENT`). -/
structure DB where
  rows : List Row
  seq : Int
deriving DecidableEq, Repr

/-- `SQLiteRepo.InsertTransaction`: `reference_no` is `UNIQUE`; the transaction date is
written as `t.TransactionDate.UTC().Format(time.RFC3339Nano)`, the statement binds `nil` for
`paid_date` whatever `t.PaidDate` holds, and the engine assigns `id`. -/
def InsertTransaction (db : DB) (t : Transaction) : DB × Except Err Unit :=
  if db.rows.any (fun row => row.reference_no = t.ReferenceNo) then
    (db, .error .uniqueConstraint)
  else
    ({ rows := db.rows ++ [{
         id := db.seq + 1
         reference_no := t.ReferenceNo
         partner_reference_no := t.PartnerReferenceNo
         merchant_id := t.MerchantID
         amount_value_minor := t.AmountValueMinor
         currency := t.Currency
         status := t.Status
         transaction_date := FormatRFC3339Nano t.TransactionDate.UTC
         paid_date := none }],
       seq := db.seq + 1 },
      .ok ())

/-- The Go function `scanTx`.  `scanned` is the row the scanner holds, `none` when the
query produced no row, in which case `Scan` returns `sql.ErrNoRows`; both timestamps are
parsed back with `time.Parse(time.RFC3339Nano, ..)`. -/
def scanTx (scanned : Option Row) : Except Err Transaction :=
  match scanned with
  | none => .error .sqlErrNoRows
  | some row =>
    match ParseRFC3339Nano row.transaction_date with
    | none => .error .parseTxTime
    | some txTime =>
      let t : Transaction :=
        { ID := row.id
          ReferenceNo := row.reference_no
          PartnerReferenceNo := row.partner_reference_no
          MerchantID := row.merchant_id
          AmountValueMinor := row.amount_value_minor
          Currency := row.currency
          Status := row.status
          TransactionDate := txTime
          PaidDate := none }
      match row.paid_date with
      | none => .ok t
      | some paidStr =>
        match ParseRFC3339Nano paidStr with
        | none => .error .parsePaidTime
        | some pd => .ok { t with PaidDate := some pd }

/-- `SQLiteRepo.GetByReferenceNo`: `QueryRowContext`, which yields the first row with the
given reference if there is one, followed by `scanTx`. -/
def GetByReferenceNo (db : DB) (ref : String) : Except Err Transaction :=
  scanTx (db.rows.find? (fun row => row.reference_no = ref))

/-- `SQLiteRepo.UpdatePaymentStatus`:
`UPDATE transactions SET status = ?, paid_date = ? WHERE reference_no = ?`, where the second
parameter is `paid.UTC().Format(time.RFC3339Nano)`, or `nil` (SQL `NULL`) when
`paid == nil`; then `RowsAffected() == 0` is reported as `sql.ErrNoRows`. -/
def UpdatePaymentStatus (db : DB) (ref : String) (status : TxStatus) (paid : Option Time) :
    DB × Except Err Unit :=
  let paidStr : Option String := match paid with
    | some p => some (FormatRFC3339Nano p.UTC)
    | none => none
  let db' : DB :=
    { db with rows := db.rows.map fun row =>
        if row.reference_no = ref then { row with status := status, paid_date := paidStr }
        else row }
  let aff := db.rows.countP (fun row => row.reference_no = ref)
  if aff = 0 then (db', .error .sqlErrNoRows) else (db', .ok ())

/-! ## `usecase/qr.go` -/

/-- `QRUsecase.GenerateQR`.  `uuidStr` is `uuid.New().String()` (36 characters) and `now`
is `time.Now()`. -/
def GenerateQR (db : DB) (uuidStr : String) (now : Time) (merchantId partnerRef : String)
    (amountMinor : Int) (currency : String) : DB × Except Err (Transaction × String) :=
  if amountMinor ≤ 0 then (db, .error .amountNotPositive)
  else
    let refNo := "A" ++ String.mk (uuidStr.toList.take 10)
    let tx : Transaction :=
      { ID := 0
        ReferenceNo := refNo
        PartnerReferenceNo := partnerRef
        MerchantID := merchantId
        AmountValueMinor := amountMinor
        Currency := currency
        Status := StatusCreated
        TransactionDate := now
        PaidDate := none }
    match InsertTransaction db tx with
    | (db', .error e) => (db', .error e)
    | (db', .ok ()) => (db', .ok (tx, "00020101021226620015" ++ refNo))

/-- `QRUsecase.PaymentCallback`: any error of the lookup is turned into
`repository.ErrNotFound`; the result of the update is returned as it is. -/
def PaymentCallback (db : DB) (originalRef : String) (status : TxStatus)
    (paidAt : Option Time) : DB × Except Err Unit :=
  match GetByReferenceNo db originalRef with
  | .error _ => (db, .error .ErrNotFound)
  | .ok _ => UpdatePaymentStatus db originalRef status paidAt

/-- The error branch of `Handler.PaymentCallback`: `err == repository.ErrNotFound` is
answered with `http.StatusNotFound`, every other error with
`http.StatusInternalServerError`. -/
def callbackErrorStatus (err : Err) : Nat :=
  if err = .ErrNotFound then 404 else 500

/-! ## Specification-side notions -/

/-- What a status update for `ref` with status `s` and paid-date text `p` may do to one row:
a row with that reference gets the new status and paid date and keeps every other column, a
row with another reference is not touched. -/
def RowUpdated (ref : String) (s : TxStatus) (p : Option String) (old new : Row) : Prop :=
  (old.reference_no = ref →
    new.status = s ∧ new.paid_date = p ∧ new.id = old.id ∧
    new.reference_no = old.reference_no ∧
    new.partner_reference_no = old.partner_reference_no ∧
    new.merchant_id = old.merchant_id ∧
    new.amount_value_minor = old.amount_value_minor ∧ new.currency = old.currency ∧
    new.transaction_date = old.transaction_date) ∧
  (old.reference_no ≠ ref → new = old)

/-- A row whose two timestamps can be read back: the transaction date parses, and so does
the paid date when there is one. -/
def Row.Readable (row : Row) : Prop :=
  (ParseRFC3339Nano row.transaction_date).isSome = true ∧
  (row.paid_date.all fun p => (ParseRFC3339Nano p).isSome) = true

instance (row : Row) : Decidable row.Readable := by
  unfold Row.Readable
  infer_instance

/-- The rational number a `big.Rat` stands for. -/
def BigRat.toRat (r : BigRat) : ℚ := (r.num : ℚ) / (r.den : ℚ)

/-- A decimal numeral for a non-negative value: an optional `+`, integer digits, and
optionally a point followed by fractional digits. -/
structure Decimal where
  plus : Bool
  intPart : List Char
  point : Bool
  fracPart : List Char
deriving DecidableEq, Repr

/-- Both parts consist of digits, there is at least one digit, and fractional digits come
with a point. -/
def Decimal.WellFormed (d : Decimal) : Prop :=
  (∀ c ∈ d.intPart, isDigit c) ∧ (∀ c ∈ d.fracPart, isDigit c) ∧
  d.intPart ++ d.fracPart ≠ [] ∧ (d.point = false → d.fracPart = [])

instance (d : Decimal) : Decidable d.WellFormed := by
  unfold Decimal.WellFormed
  infer_instance

/-- The characters of the numeral without its sign. -/
def Decimal.body (d : Decimal) : List Char :=
  d.intPart ++ (if d.point then '.' :: d.fracPart else [])

/-- The numeral as a string. -/
def Decimal.text (d : Decimal) : String :=
  String.mk ((if d.plus then ['+'] else []) ++ d.body)

/-- The value the numeral denotes. -/
def Decimal.value (d : Decimal) : ℚ :=
  (digitsValue (d.intPart ++ d.fracPart) : ℚ) / (10 : ℚ) ^ d.fracPart.length

/-- A stored row used in the concrete instances below: a paid transaction. -/
def paidRow : Row :=
  { id := 1
    reference_no := "A123e4567-e"
    partner_reference_no := "P-1"
    merchant_id := "M-1"
    amount_value_minor := 150000
    currency := "IDR"
    status := StatusSuccess
    transaction_date := "2023-11-14T22:13:20Z"
    paid_date := some "2023-11-14T22:14:20Z" }

/-- A stored row used in the concrete instances below: a transaction as `GenerateQR`
leaves it. -/
def createdRow : Row :=
  { id := 1
    reference_no := "A123e4567-e"
    partner_reference_no := "P-1"
    merchant_id := "M-1"
    amount_value_minor := 150000
    currency := "IDR"
    status := StatusCreated
    transaction_date := "2023-11-14T22:13:20Z"
    paid_date := none }

/-- The instant `2023-11-14T22:13:20Z`. -/
def creationTime : Time :=
  { year := 2023, month := 11, day := 14, hour := 22, minute := 13, second := 20,
    nanosecond := 0 }

/-- The instant `2023-11-14T22:15:00.5Z`. -/
def sampleTime : Time :=
  { year := 2023, month := 11, day := 14, hour := 22, minute := 15, second := 0,
    nanosecond := 500000000 }

/-- The instant `9999-12-31T23:59:59-01:00`, which in UTC is `10000-01-01T00:59:59Z`. -/
def lateTime : Time :=
  { year := 10000, month := 1, day := 1, hour := 0, minute := 59, second := 59,
    nanosecond := 0 }

/-! ## Auxiliary lemmas: digits -/

lemma digitChar_spec : ∀ d : Fin 10,
    isDigit (Nat.digitChar d.val) ∧ (Nat.digitChar d.val).toNat - 48 = d.val := by
  decide

lemma digitChar_isDigit (n : Nat) (h : n < 10) : isDigit (Nat.digitChar n) :=
  (digitChar_spec ⟨n, h⟩).1

lemma digitChar_toNat (n : Nat) (h : n < 10) : (Nat.digitChar n).toNat - 48 = n :=
  (digitChar_spec ⟨n, h⟩).2

lemma digitsValue_snoc (ps : List Char) (c : Char) :
    digitsValue (ps ++ [c]) = digitsValue ps * 10 + (c.toNat - 48) := by
  unfold digitsValue
  rw [List.foldl_append]
  rfl

/-! ## Auxiliary lemmas: `time` -/

lemma fixedDigits_length (w : Nat) : ∀ n, (fixedDigits w n).length = w := by
  induction w with
  | zero => intro n; rfl
  | succ w ih => intro n; rw [fixedDigits, List.length_append, ih]; rfl

lemma fixedDigits_isDigit (w : Nat) : ∀ n, ∀ c ∈ fixedDigits w n, isDigit c := by
  induction w with
  | zero => intro n c hc; exact absurd hc (List.not_mem_nil c)
  | succ w ih =>
    intro n c hc
    rw [fixedDigits] at hc
    rcases List.mem_append.mp hc with h | h
    · exact ih _ c h
    · rw [List.mem_singleton.mp h]
      exact digitChar_isDigit _ (Nat.mod_lt _ (by decide))

lemma fixedDigits_value (w : Nat) : ∀ n, digitsValue (fixedDigits w n) = n % 10 ^ w := by
  induction w with
  | zero => intro n; simp [fixedDigits, digitsValue, Nat.mod_one]
  | succ w ih =>
    intro n
    rw [fixedDigits, digitsValue_snoc, ih, digitChar_toNat _ (Nat.mod_lt _ (by decide)),
      pow_succ, Nat.mul_comm (10 ^ w) 10, Nat.mod_mul]
    omega

lemma fixedDigits_two (n : Nat) :
    fixedDigits 2 n = [Nat.digitChar (n / 10 % 10), Nat.digitChar (n % 10)] := rfl

lemma fixedDigits_four (n : Nat) :
    fixedDigits 4 n = [Nat.digitChar (n / 10 / 10 / 10 % 10), Nat.digitChar (n / 10 / 10 % 10),
      Nat.digitChar (n / 10 % 10), Nat.digitChar (n % 10)] := rfl

lemma appendInt_of_lt (n w : Nat) (h : n < 10 ^ w) : appendInt (n : Int) w = fixedDigits w n := by
  unfold appendInt
  rw [if_neg (by omega), Int.natAbs_ofNat, if_pos h]
  rfl

lemma getnum_fixedDigits (n : Nat) (h : n < 100) (rest : List Char) (isFixed : Bool) :
    getnum (fixedDigits 2 n ++ rest) isFixed = some (n, rest) := by
  have h1 := digitChar_spec ⟨n / 10 % 10, Nat.mod_lt _ (by decide)⟩
  have h2 := digitChar_spec ⟨n % 10, Nat.mod_lt _ (by decide)⟩
  rw [fixedDigits_two]
  simp only [List.cons_append, List.nil_append, getnum, h1.1, h2.1, not_true_eq_false, if_false,
    if_true, h1.2, h2.2]
  congr 2
  omega

lemma parseYear_fixedDigits (n : Nat) (h : n < 10000) (rest : List Char) :
    parseYear (fixedDigits 4 n ++ rest) = some (n, rest) := by
  have hv := fixedDigits_value 4 n
  have hd := fixedDigits_isDigit 4 n
  rw [fixedDigits_four] at hv hd ⊢
  simp only [List.cons_append, List.nil_append, parseYear]
  rw [if_pos ⟨hd _ (by simp), hd _ (by simp), hd _ (by simp), hd _ (by simp)⟩, hv,
    Nat.mod_eq_of_lt (by omega)]

lemma foldl_zeros (B : List Char) (hB : ∀ c ∈ B, c = '0') (v : Nat) :
    B.foldl (fun acc c => acc * 10 + (c.toNat - 48)) v = v * 10 ^ B.length := by
  induction B generalizing v with
  | nil => simp
  | cons c B ih =>
    have hc : c = '0' := hB c (List.mem_cons_self c B)
    rw [List.foldl_cons, ih (fun x hx => hB x (List.mem_cons_of_mem c hx)), hc,
      List.length_cons, pow_succ]
    have : ('0'.toNat - 48) = 0 := by decide
    rw [this]
    ring

lemma takeWhile_digits (A : List Char) (hA : ∀ c ∈ A, isDigit c) (z : Char) (hz : ¬ isDigit z)
    (r : List Char) :
    (A ++ z :: r).takeWhile (fun x => decide (isDigit x)) = A ∧
    (A ++ z :: r).dropWhile (fun x => decide (isDigit x)) = z :: r := by
  induction A with
  | nil => simp [List.takeWhile, List.dropWhile, hz]
  | cons c A ih =>
    have hc : isDigit c := hA c (List.mem_cons_self c A)
    obtain ⟨h1, h2⟩ := ih (fun x hx => hA x (List.mem_cons_of_mem c hx))
    rw [List.cons_append, List.takeWhile_cons, List.dropWhile_cons]
    simp only [hc, decide_True, if_true, h1, h2, and_self]

lemma trim_spec (l : List Char) :
    l = (l.reverse.dropWhile (fun c => decide (c = '0'))).reverse
          ++ (l.reverse.takeWhile (fun c => decide (c = '0'))).reverse ∧
    ∀ c ∈ (l.reverse.takeWhile (fun c => decide (c = '0'))).reverse, c = '0' := by
  constructor
  · rw [← List.reverse_append, List.takeWhile_append_dropWhile, List.reverse_reverse]
  · intro c hc
    rw [List.mem_reverse] at hc
    simpa using List.mem_takeWhile_imp hc

lemma parseFrac_appendNano (ns : Nat) (h : ns < 1000000000) (z : Char) (hz : ¬ isDigit z)
    (hz' : z ≠ '.' ∧ z ≠ ',') (r : List Char) :
    parseFrac (appendNano ns ++ z :: r) = (ns, z :: r) := by
  unfold appendNano
  by_cases h0 : ns = 0
  · rw [if_pos h0, List.nil_append, h0]
    unfold parseFrac
    cases r with
    | nil => rfl
    | cons c r' =>
      simp only []
      rw [if_neg (by rintro ⟨h1 | h1, -⟩ <;> simp_all)]
  · rw [if_neg h0, appendInt_of_lt ns 9 (by norm_num; exact h)]
    obtain ⟨hsplit, hzeros⟩ := trim_spec (fixedDigits 9 ns)
    generalize hA : ((fixedDigits 9 ns).reverse.dropWhile (fun c => decide (c = '0'))).reverse = A
      at hsplit
    generalize hB : ((fixedDigits 9 ns).reverse.takeWhile (fun c => decide (c = '0'))).reverse = B
      at hsplit hzeros
    have hlen : A.length + B.length = 9 := by
      rw [← List.length_append, ← hsplit, fixedDigits_length]
    have hdig : ∀ c ∈ A, isDigit c := by
      intro c hc
      exact fixedDigits_isDigit 9 ns c (by rw [hsplit]; exact List.mem_append_left _ hc)
    have hval : digitsValue A * 10 ^ B.length = ns := by
      have := fixedDigits_value 9 ns
      rw [hsplit, Nat.mod_eq_of_lt (by norm_num; exact h)] at this
      rw [← this]
      unfold digitsValue
      rw [List.foldl_append, foldl_zeros B hzeros]
    have hne : A ≠ [] := by
      intro e
      rw [e] at hval
      simp [digitsValue] at hval
      exact h0 hval.symm
    obtain ⟨c, A', rfl⟩ := List.exists_cons_of_ne_nil hne
    have hc : isDigit c := hdig c (List.mem_cons_self c A')
    obtain ⟨htake, hdrop⟩ := takeWhile_digits (c :: A') hdig z hz r
    simp only [List.cons_append] at htake hdrop ⊢
    unfold parseFrac
    simp only [true_or, hc, and_self, if_true, htake, hdrop]
    have hle : (c :: A').length ≤ 9 := by omega
    rw [List.take_of_length_le hle]
    have h9 : 9 - (c :: A').length = B.length := by omega
    rw [h9, hval]

lemma parseClock_format (h m sec ns : Nat) (hh : h < 24) (hm : m < 60) (hs : sec < 60)
    (hns : ns < 1000000000) :
    parseClock ('T' :: appendInt (h : Int) 2 ++ ':' :: appendInt (m : Int) 2
      ++ ':' :: appendInt (sec : Int) 2 ++ appendNano ns ++ ['Z'])
      = some (h, m, sec, ns, none) := by
  rw [appendInt_of_lt h 2 (by norm_num; omega), appendInt_of_lt m 2 (by norm_num; omega),
    appendInt_of_lt sec 2 (by norm_num; omega)]
  have hfrac := parseFrac_appendNano ns hns 'Z' (by decide) (by decide) []
  have hzone : parseZone ['Z'] = some (none, []) := by decide
  unfold parseClock
  simp only [List.cons_append, List.append_assoc, skip, if_true,
    getnum_fixedDigits h (by omega), getnum_fixedDigits m (by omega),
    getnum_fixedDigits sec (by omega), if_neg (Nat.not_le.mpr hh), if_neg (Nat.not_le.mpr hm),
    if_neg (Nat.not_le.mpr hs), hfrac, hzone, ne_eq, not_true_eq_false, if_false]

lemma parseDate_format (y m d : Nat) (hy : y < 10000) (hm1 : 1 ≤ m) (hm : m ≤ 12) (hd : d < 100)
    (rest : List Char) :
    parseDate (appendInt (y : Int) 4 ++ '-' :: appendInt (m : Int) 2
      ++ '-' :: appendInt (d : Int) 2 ++ rest) = some (y, m, d, rest) := by
  rw [appendInt_of_lt y 4 (by norm_num; omega), appendInt_of_lt m 2 (by norm_num; omega),
    appendInt_of_lt d 2 (by norm_num; omega)]
  unfold parseDate
  simp only [List.cons_append, List.append_assoc, parseYear_fixedDigits y hy, skip, if_true,
    getnum_fixedDigits m (by omega), getnum_fixedDigits d hd]
  rw [if_neg (by omega)]

lemma daysIn_le (m : Nat) (y : Int) : daysIn m y ≤ 31 := by
  unfold daysIn
  split
  · omega
  · by_cases hm : m - 1 < 12
    · interval_cases (m - 1) <;> simp
    · have : ([31, 28, 31, 30, 31, 30, 31, 31, 30, 31, 30, 31] : List Nat).getD (m - 1) 0 = 0 := by
        apply List.getD_eq_default
        simp
        omega
      omega

/-- A valid time with a UTC year within `0000..9999` is read back from its text. -/
lemma Parse_Format (t : Time) (hv : t.Valid) (hy : 0 ≤ t.year ∧ t.year ≤ 9999) :
    ParseRFC3339Nano (FormatRFC3339Nano t) = some t := by
  obtain ⟨hm1, hm, hd1, hd, hh, hmi, hs, hns⟩ := hv
  obtain ⟨y, hyy⟩ : ∃ y : Nat, t.year = (y : Int) := ⟨t.year.toNat, by omega⟩
  have hy' : y < 10000 := by omega
  have hd31 := daysIn_le t.month t.year
  cases t with
  | mk year month day hour minute second nanosecond =>
    simp only [] at hyy hm1 hm hd1 hd hh hmi hs hns hd31
    subst hyy
    unfold ParseRFC3339Nano FormatRFC3339Nano
    simp only [String.toList]
    have hdate := parseDate_format y month day hy' hm1 hm (by omega)
      ('T' :: appendInt (hour : Int) 2 ++ ':' :: appendInt (minute : Int) 2
        ++ ':' :: appendInt (second : Int) 2 ++ appendNano nanosecond ++ ['Z'])
    have hclock := parseClock_format hour minute second nanosecond hh hmi hs hns
    simp only [List.cons_append, List.append_assoc] at hdate hclock ⊢
    rw [hdate]
    simp only []
    rw [hclock]
    simp only []
    rw [if_neg (by omega)]

/-! ## Auxiliary lemmas: store -/

lemma forall₂_map_of_forall {α β : Type} (R : α → β → Prop) (f : α → β)
    (h : ∀ a, R a (f a)) (l : List α) : List.Forall₂ R l (l.map f) := by
  induction l with
  | nil => exact List.Forall₂.nil
  | cons a l ih => exact List.Forall₂.cons (h a) ih

lemma forall₂_mem_right {α β : Type} {R : α → β → Prop} {l₁ : List α} {l₂ : List β}
    (h : List.Forall₂ R l₁ l₂) {b : β} (hb : b ∈ l₂) : ∃ a ∈ l₁, R a b := by
  induction h with
  | nil => exact absurd hb (List.not_mem_nil b)
  | cons hab _ ih =>
    rcases List.mem_cons.mp hb with rfl | hb'
    · exact ⟨_, List.mem_cons_self _ _, hab⟩
    · obtain ⟨a, ha, hr⟩ := ih hb'
      exact ⟨a, List.mem_cons_of_mem _ ha, hr⟩

lemma map_update_of_no_match (ref : String) (s : TxStatus) (p : Option String)
    (rows : List Row) (h : ∀ row ∈ rows, row.reference_no ≠ ref) :
    rows.map (fun row =>
      if row.reference_no = ref then { row with status := s, paid_date := p } else row)
      = rows := by
  induction rows with
  | nil => rfl
  | cons a l ih =>
    have ha : a.reference_no ≠ ref := h a (List.mem_cons_self a l)
    have hl : ∀ row ∈ l, row.reference_no ≠ ref :=
      fun row hr => h row (List.mem_cons_of_mem a hr)
    simp only [List.map_cons, if_neg ha, ih hl]

lemma find?_map_update (ref : String) (s : TxStatus) (p : Option String) (rows : List Row) :
    (rows.map (fun row =>
      if row.reference_no = ref then { row with status := s, paid_date := p } else row)).find?
        (fun row => decide (row.reference_no = ref))
      = (rows.find? (fun row => decide (row.reference_no = ref))).map
          (fun row => { row with status := s, paid_date := p }) := by
  induction rows with
  | nil => rfl
  | cons a l ih =>
    by_cases ha : a.reference_no = ref
    · simp [ha]
    · simp [ha, ih]

lemma UpdatePaymentStatus_fst (db : DB) (ref : String) (s : TxStatus) (paid : Option Time) :
    (UpdatePaymentStatus db ref s paid).1
      = { db with rows := db.rows.map (fun row =>
            if row.reference_no = ref then
              { row with status := s, paid_date := paid.map FormatRFC3339Nano }
            else row) } := by
  unfold UpdatePaymentStatus
  cases paid <;> (simp only []; split <;> rfl)

lemma UpdatePaymentStatus_rows (db : DB) (ref : String) (s : TxStatus) (paid : Option Time) :
    List.Forall₂ (RowUpdated ref s (paid.map FormatRFC3339Nano)) db.rows
      (UpdatePaymentStatus db ref s paid).1.rows ∧
    (UpdatePaymentStatus db ref s paid).1.seq = db.seq := by
  rw [UpdatePaymentStatus_fst]
  refine ⟨?_, rfl⟩
  apply forall₂_map_of_forall
  intro a
  by_cases ha : a.reference_no = ref
  · simp only [if_pos ha]
    exact ⟨fun _ => ⟨rfl, rfl, rfl, rfl, rfl, rfl, rfl, rfl, rfl⟩, fun hne => absurd ha hne⟩
  · simp only [if_neg ha]
    exact ⟨fun h => absurd h ha, fun _ => rfl⟩

lemma UpdatePaymentStatus_result_of_match (db : DB) (ref : String) (s : TxStatus)
    (t : Option Time) (h : ∃ row ∈ db.rows, row.reference_no = ref) :
    (UpdatePaymentStatus db ref s t).2 = .ok () := by
  obtain ⟨row, hmem, href⟩ := h
  have hpos : 0 < db.rows.countP (fun row => decide (row.reference_no = ref)) :=
    List.countP_pos_iff.mpr ⟨row, hmem, by simpa using href⟩
  unfold UpdatePaymentStatus
  simp only []
  rw [if_neg (by omega)]

lemma UpdatePaymentStatus_of_no_match (db : DB) (ref : String) (s : TxStatus)
    (t : Option Time) (h : ∀ row ∈ db.rows, row.reference_no ≠ ref) :
    UpdatePaymentStatus db ref s t = (db, .error .sqlErrNoRows) := by
  have hzero : db.rows.countP (fun row => decide (row.reference_no = ref)) = 0 := by
    rw [List.countP_eq_zero]
    intro row hmem
    simpa using h row hmem
  have hfst := UpdatePaymentStatus_fst db ref s t
  rw [map_update_of_no_match ref s _ db.rows h] at hfst
  have hsnd : (UpdatePaymentStatus db ref s t).2 = .error .sqlErrNoRows := by
    unfold UpdatePaymentStatus
    simp only []
    rw [if_pos hzero]
  exact Prod.ext hfst hsnd

lemma GetByReferenceNo_of_no_match (db : DB) (ref : String)
    (h : ∀ row ∈ db.rows, row.reference_no ≠ ref) :
    GetByReferenceNo db ref = .error .sqlErrNoRows := by
  unfold GetByReferenceNo
  have hfind : db.rows.find? (fun row => decide (row.reference_no = ref)) = none := by
    rw [List.find?_eq_none]
    intro row hmem
    simpa using h row hmem
  rw [hfind]
  rfl

lemma find?_of_match (db : DB) (ref : String)
    (h : ∃ row ∈ db.rows, row.reference_no = ref) :
    ∃ row, db.rows.find? (fun row => decide (row.reference_no = ref)) = some row ∧
      row ∈ db.rows ∧ row.reference_no = ref := by
  obtain ⟨row, hmem, href⟩ := h
  cases hfind : db.rows.find? (fun row => decide (row.reference_no = ref)) with
  | some r =>
    refine ⟨r, rfl, List.mem_of_find?_eq_some hfind, ?_⟩
    simpa using List.find?_some hfind
  | none =>
    rw [List.find?_eq_none] at hfind
    exact absurd (by simpa using href) (hfind row hmem)

/-- A readable row scans, and after a status update with a paid time that survives the
round trip through its text it scans to the same record with the new status and paid
date. -/
lemma scanTx_update (row : Row) (hread : row.Readable) (s : TxStatus) (paid : Option Time)
    (hpaid : ∀ t, paid = some t → t.Valid ∧ 0 ≤ t.year ∧ t.year ≤ 9999) :
    ∃ tx, scanTx (some row) = .ok tx ∧
      scanTx (some { row with status := s, paid_date := paid.map FormatRFC3339Nano })
        = .ok { tx with Status := s, PaidDate := paid } := by
  obtain ⟨htx, hpd⟩ := hread
  obtain ⟨txTime, htxTime⟩ := Option.isSome_iff_exists.mp htx
  have hafter : ∀ pd0 : Option Time,
      scanTx (some { row with status := s, paid_date := paid.map FormatRFC3339Nano })
        = .ok { ({ ID := row.id
                   ReferenceNo := row.reference_no
                   PartnerReferenceNo := row.partner_reference_no
                   MerchantID := row.merchant_id
                   AmountValueMinor := row.amount_value_minor
                   Currency := row.currency
                   Status := row.status
                   TransactionDate := txTime
                   PaidDate := pd0 } : Transaction) with Status := s, PaidDate := paid } := by
    intro pd0
    cases paid with
    | none => simp only [scanTx, htxTime, Option.map_none']
    | some t =>
      obtain ⟨hv, hy⟩ := hpaid t rfl
      simp only [scanTx, htxTime, Option.map_some', Parse_Format t hv hy]
  cases hp : row.paid_date with
  | none =>
    refine ⟨_, ?_, hafter none⟩
    simp only [scanTx, htxTime, hp]
  | some p =>
    rw [hp] at hpd
    obtain ⟨pd, hpdv⟩ := Option.isSome_iff_exists.mp (by simpa [Option.all] using hpd)
    refine ⟨_, ?_, hafter (some pd)⟩
    simp only [scanTx, htxTime, hp, hpdv]

/-! ## Auxiliary lemmas: signature gate -/

lemma ParseInt_range (s : String) (n : Int) (h : ParseInt s = some n) :
    minInt64 ≤ n ∧ n ≤ maxInt64 := by
  unfold ParseInt at h
  cases hs : s.toList with
  | nil => rw [hs] at h; exact absurd h (by simp)
  | cons c cs =>
    rw [hs] at h
    simp only [] at h
    generalize (if c = '+' ∨ c = '-' then cs else c :: cs) = rest at h
    by_cases hr : rest = []
    · rw [if_pos hr] at h; exact absurd h (by simp)
    · rw [if_neg hr] at h
      cases hp : parseDigits rest 0 with
      | none => rw [hp] at h; exact absurd h (by simp)
      | some un =>
        rw [hp] at h
        unfold minInt64 maxInt64
        by_cases hc : c = '-'
        · simp only [hc, decide_True, Bool.not_true, Bool.false_and, Bool.true_and,
            decide_eq_true_eq, if_true] at h
          split_ifs at h
          all_goals (simp only [Option.some.injEq] at h; omega)
        · simp only [hc, decide_False, Bool.not_false, Bool.false_and, Bool.true_and,
            decide_eq_true_eq, if_false] at h
          split_ifs at h
          all_goals (simp only [Option.some.injEq] at h; omega)

lemma wrapInt64_le (x : Int) (h : -(2 ^ 63) ≤ x) : wrapInt64 x ≤ x := by
  unfold wrapInt64
  omega

lemma wrapInt64_of_range (x : Int) (h : minInt64 ≤ x ∧ x ≤ maxInt64) : wrapInt64 x = x := by
  unfold minInt64 maxInt64 at h
  unfold wrapInt64
  omega

/-- Without overflow in `now - tsInt` the freshness check does what the specification
says: a request older than a positive maximum age is rejected as expired. -/
lemma SignatureMiddleware_expired_of_no_overflow
    (hmacSha256 : String → String → List Byte) (cfg : SigConfig) (now ts : Int) (r : Request)
    (hmethod : r.Method = "POST" ∨ r.Method = "PUT" ∨ r.Method = "PATCH")
    (hts : r.XTimestamp ≠ "") (hsig : r.XSignature ≠ "")
    (hparse : ParseInt r.XTimestamp = some ts)
    (hmax : 0 < cfg.MaxAgeSeconds)
    (hold : now - ts > cfg.MaxAgeSeconds)
    (hno : now - ts ≤ maxInt64) :
    SignatureMiddleware hmacSha256 cfg now r = .httpError "signature expired" 401 := by
  have hw : wrapInt64 (now - ts) = now - ts :=
    wrapInt64_of_range _ ⟨by unfold minInt64; omega, hno⟩
  unfold SignatureMiddleware
  simp only [if_pos hmethod, hts, hsig, or_self, if_false, hparse, hw]
  rw [if_pos ⟨hmax, hold⟩]

/-! ## Auxiliary lemmas: `math/big` -/

lemma norm_den_pos (a : Int) (b : Nat) (hb : 0 < b) : 0 < (BigRat.norm a b).den := by
  unfold BigRat.norm
  split
  · exact Nat.one_pos
  · simp only []
    exact Nat.div_pos (Nat.le_of_dvd hb (Nat.gcd_dvd_right _ _)) (Nat.gcd_pos_of_pos_right _ hb)

lemma norm_toRat (a : Int) (b : Nat) (hb : 0 < b) :
    (BigRat.norm a b).toRat = (a : ℚ) / (b : ℚ) := by
  unfold BigRat.norm BigRat.toRat
  split
  · rename_i h
    simp [h]
  · simp only []
    have hg : 0 < Nat.gcd a.natAbs b := Nat.gcd_pos_of_pos_right _ hb
    have hga : ((Nat.gcd a.natAbs b : Nat) : Int) ∣ a := by
      rw [Int.natCast_dvd]
      exact Nat.gcd_dvd_left _ _
    have hgb : Nat.gcd a.natAbs b ∣ b := Nat.gcd_dvd_right _ _
    generalize Nat.gcd a.natAbs b = g at hg hga hgb
    obtain ⟨a', ha'⟩ := hga
    obtain ⟨b', hb'⟩ := hgb
    have hgq : (g : ℚ) ≠ 0 := by exact_mod_cast hg.ne'
    have hgz : (g : Int) ≠ 0 := by exact_mod_cast hg.ne'
    have e1 : Int.tdiv a (g : Int) = a' := by
      rw [Int.tdiv_eq_ediv_of_dvd ⟨a', ha'⟩, ha', Int.mul_ediv_cancel_left _ hgz]
    have e2 : b / g = b' := by
      rw [hb', Nat.mul_div_cancel_left _ hg]
    rw [e1, e2]
    have ha'' : (a : ℚ) = (g : ℚ) * (a' : ℚ) := by exact_mod_cast ha'
    have hb'' : (b : ℚ) = (g : ℚ) * (b' : ℚ) := by exact_mod_cast hb'
    rw [ha'', hb'', mul_div_mul_left _ _ hgq]

lemma bigDiv_eq_ediv (x y : Int) (hy : 0 < y) : bigDiv x y = x / y := by
  unfold bigDiv
  simp only []
  have h1 : Int.tmod x y + y * Int.tdiv x y = x := Int.tmod_add_tdiv x y
  have h2 : Int.tmod x y < y := Int.tmod_lt_of_pos x hy
  have h3 : -y < Int.tmod x y := by
    have hneg : Int.tmod (-x) y = -(Int.tmod x y) := by
      rw [Int.tmod_def, Int.tmod_def, Int.neg_tdiv]
      ring
    have := Int.tmod_lt_of_pos (-x) hy
    rw [hneg] at this
    omega
  by_cases hr : Int.tmod x y < 0
  · rw [if_pos hr, if_neg (by omega)]
    symm
    have hsum : Int.tmod x y + y + y * (Int.tdiv x y - 1) = x := by
      rw [Int.mul_sub, Int.mul_one]
      omega
    exact ((Int.ediv_emod_unique hy).mpr ⟨hsum, by omega, by omega⟩).1
  · rw [if_neg hr]
    symm
    exact ((Int.ediv_emod_unique hy).mpr ⟨h1, by omega, h2⟩).1

lemma bigInt64_of_range (x : Int) (h : minInt64 ≤ x ∧ x ≤ maxInt64) : bigInt64 x = x := by
  unfold minInt64 maxInt64 at h
  unfold bigInt64 wrapInt64
  simp only []
  split <;> omega


lemma applyPow5_den_pos (abs : Nat) (exp5 : Int) (a b : Nat)
    (h : applyPow5 abs exp5 = some (a, b)) : 0 < b := by
  unfold applyPow5 at h
  simp only [] at h
  generalize (if exp5 < 0 then wrapInt64 (-exp5) else exp5) = n at h
  split_ifs at h
  all_goals
    simp only [Option.some.injEq, Prod.mk.injEq] at h
    rw [← h.2]
    positivity

lemma applyPow2_den_pos (a b : Nat) (exp2 : Int) (a' b' : Nat) (hb : 0 < b)
    (h : applyPow2 a b exp2 = some (a', b')) : 0 < b' := by
  unfold applyPow2 at h
  split_ifs at h
  all_goals
    simp only [Option.some.injEq, Prod.mk.injEq] at h
    rw [← h.2]
    try rw [Nat.shiftLeft_eq]
    try positivity

lemma applyExponents_den_pos (abs base : Nat) (fcount exp : Int) (ebase a b : Nat)
    (h : applyExponents abs base fcount exp ebase = some (a, b)) : 0 < b := by
  unfold applyExponents at h
  simp only [] at h
  split at h
  · exact absurd h (by simp)
  · rename_i a₁ b₁ h5
    exact applyPow2_den_pos _ _ _ _ _ (applyPow5_den_pos _ _ _ _ h5) h

lemma RatSetString_den_pos (s : String) (r : BigRat) (h : RatSetString s = some r) :
    0 < r.den := by
  unfold RatSetString at h
  simp only [] at h
  split_ifs at h
  split at h
  · split at h
    · exact absurd h (by simp)
    · split at h
      · exact absurd h (by simp)
      · rename_i b _ _ _ _
        split_ifs at h with h1 h2
        simp only [Option.some.injEq] at h
        rw [← h]
        exact norm_den_pos _ _ (Nat.pos_of_ne_zero h2)
  · split at h
    · exact absurd h (by simp)
    · split at h
      · exact absurd h (by simp)
      · split at h
        · exact absurd h (by simp)
        · split_ifs at h
          all_goals first
            | (simp only [Option.some.injEq] at h
               rw [← h]
               exact norm_den_pos _ _ Nat.one_pos)
            | (split at h
               · simp at h
               · rename_i happ
                 simp only [Option.some.injEq] at h
                 rw [← h]
                 exact norm_den_pos _ _ (applyExponents_den_pos _ _ _ _ _ _ _ happ))

/-! ## Theorems: signature gate -/

/-- C1: a `POST`, `PUT` or `PATCH` request with both headers non-empty, a timestamp that
parses to `ts`, a readable body, and a satisfied freshness check (maximum age not positive,
or `now - ts` at most the maximum age, which includes timestamps in the future) is handed
to the downstream handler, unchanged, when its signature is the lowercase hex encoding of
`HMAC-SHA256(secret, body ++ "." ++ timestamp)`, and is otherwise answered with
401 `invalid signature` without the handler being invoked.  `now` is the Unix time read
from the clock, which is not before the epoch. -/
theorem SignatureMiddleware_checks_signature
    (hmacSha256 : String → String → List Byte) (cfg : SigConfig) (now ts : Int)
    (r : Request) (body : String)
    (hmethod : r.Method = "POST" ∨ r.Method = "PUT" ∨ r.Method = "PATCH")
    (hts : r.XTimestamp ≠ "") (hsig : r.XSignature ≠ "")
    (hparse : ParseInt r.XTimestamp = some ts)
    (hbody : r.Body = some body)
    (hnow : 0 ≤ now)
    (hfresh : cfg.MaxAgeSeconds ≤ 0 ∨ now - ts ≤ cfg.MaxAgeSeconds) :
    (r.XSignature = EncodeToString (hmacSha256 cfg.Secret (body ++ "." ++ r.XTimestamp)) →
      SignatureMiddleware hmacSha256 cfg now r = .next r) ∧
    (r.XSignature ≠ EncodeToString (hmacSha256 cfg.Secret (body ++ "." ++ r.XTimestamp)) →
      SignatureMiddleware hmacSha256 cfg now r = .httpError "invalid signature" 401) := by
  have hrange := ParseInt_range _ _ hparse
  have hnotexp : ¬ (cfg.MaxAgeSeconds > 0 ∧ wrapInt64 (now - ts) > cfg.MaxAgeSeconds) := by
    rintro ⟨hpos, hgt⟩
    have hle := wrapInt64_le (now - ts) (by unfold maxInt64 at hrange; omega)
    omega
  have hr : ({ r with Body := some body } : Request) = r := by
    cases r
    simp only [Request.mk.injEq, true_and] at hbody ⊢
    exact hbody.symm
  have hassoc : body ++ ("." ++ r.XTimestamp) = body ++ "." ++ r.XTimestamp :=
    (String.append_assoc _ _ _).symm
  unfold SignatureMiddleware
  simp only [if_pos hmethod, hts, hsig, or_self, if_false, hparse, if_neg hnotexp, hbody, hassoc,
    hr]
  constructor
  · intro h
    rw [if_neg (by simp [h])]
  · intro h
    rw [if_pos (by intro h'; exact h h'.symm)]

/-- C1 at a concrete request, with a stand-in for the keyed hash that always returns the
two bytes `ab cd`: the request carrying `"abcd"` passes. -/
theorem SignatureMiddleware_checks_signature_witness :
    (Request.mk "POST" "1700000000" "abcd" (some "\x7b\x7d")).XSignature
        = EncodeToString ((fun _ _ => [171, 205]) "k" ("\x7b\x7d" ++ "." ++ "1700000000")) ∧
    SignatureMiddleware (fun _ _ => [171, 205]) ⟨"k", 300⟩ 1700000010
      ⟨"POST", "1700000000", "abcd", some "\x7b\x7d"⟩
      = .next ⟨"POST", "1700000000", "abcd", some "\x7b\x7d"⟩ :=
  ⟨by decide,
    (SignatureMiddleware_checks_signature (fun _ _ => [171, 205]) ⟨"k", 300⟩ 1700000010
      1700000000 ⟨"POST", "1700000000", "abcd", some "\x7b\x7d"⟩ "\x7b\x7d"
      (by decide) (by decide) (by decide) (by decide) rfl (by decide) (by decide)).1
      (by decide)⟩

/-- C2 (defect in the code): with a maximum age of 300 seconds, at Unix time 1700000000, a
`POST` whose timestamp header is the smallest `int64` is older than the maximum age by any
count, yet `now - tsInt` overflows to a negative `int64`, the freshness check passes, and a
request with the correct signature for that body and timestamp reaches the handler. -/
theorem SignatureMiddleware_overflow_passes_freshness
    (hmacSha256 : String → String → List Byte) (secret body sig : String)
    (hsig : sig ≠ "")
    (hcorrect : sig
      = EncodeToString (hmacSha256 secret (body ++ "." ++ "-9223372036854775808"))) :
    ParseInt "-9223372036854775808" = some (-9223372036854775808) ∧
    (1700000000 : Int) - (-9223372036854775808) > 300 ∧
    SignatureMiddleware hmacSha256 ⟨secret, 300⟩ 1700000000
      ⟨"POST", "-9223372036854775808", sig, some body⟩
      = .next ⟨"POST", "-9223372036854775808", sig, some body⟩ := by
  have hparse : ParseInt "-9223372036854775808" = some (-9223372036854775808) := by decide
  have hassoc : body ++ ("." ++ "-9223372036854775808") = body ++ "." ++ "-9223372036854775808" :=
    (String.append_assoc _ _ _).symm
  have hts : ¬ ("-9223372036854775808" = "") := by decide
  have hw : ¬ ((300 : Int) > 0 ∧ wrapInt64 (1700000000 - (-9223372036854775808)) > 300) := by
    decide
  refine ⟨hparse, by decide, ?_⟩
  unfold SignatureMiddleware
  simp only [true_or, if_true, hts, hsig, or_self, if_false, hparse, if_neg hw, hassoc,
    ← hcorrect, not_true_eq_false]

/-- C2's defect with a stand-in for the keyed hash that always returns the two bytes
`ab cd`. -/
theorem SignatureMiddleware_overflow_passes_freshness_witness :
    SignatureMiddleware (fun _ _ => [171, 205]) ⟨"k", 300⟩ 1700000000
      ⟨"POST", "-9223372036854775808", "abcd", some "\x7b\x7d"⟩
      = .next ⟨"POST", "-9223372036854775808", "abcd", some "\x7b\x7d"⟩ :=
  (SignatureMiddleware_overflow_passes_freshness (fun _ _ => [171, 205]) "k" "\x7b\x7d" "abcd"
    (by decide) (by decide)).2.2

/-! ## Theorems: transaction lifecycle -/

/-- C6: `PaymentCallback` with a reference that no record carries fails with
`repository.ErrNotFound` and leaves the store as it was. -/
theorem PaymentCallback_unknown_reference (db : DB) (ref : String) (s : TxStatus)
    (t : Option Time) (h : ∀ row ∈ db.rows, row.reference_no ≠ ref) :
    PaymentCallback db ref s t = (db, .error .ErrNotFound) := by
  unfold PaymentCallback
  rw [GetByReferenceNo_of_no_match db ref h]

/-- C6 at a concrete store. -/
theorem PaymentCallback_unknown_reference_witness :
    PaymentCallback ⟨[paidRow], 1⟩ "Aunknown" StatusSuccess (some sampleTime)
      = (⟨[paidRow], 1⟩, .error .ErrNotFound) :=
  PaymentCallback_unknown_reference ⟨[paidRow], 1⟩ "Aunknown" StatusSuccess (some sampleTime)
    (by decide)

/-- C7: `GenerateQR` with a positive amount, on a store in which the insert succeeds (no row
carries the generated reference yet), returns a record with status `CREATED`, no paid date
and the given merchant, partner reference, amount and currency; its reference is `"A"`
followed by the first ten characters of the random token, and the QR content is the literal
`"00020101021226620015"` followed by that reference, which therefore ends it. -/
theorem GenerateQR_creates (db : DB) (uuidStr : String) (now : Time)
    (merchantId partnerRef : String) (amountMinor : Int) (currency : String)
    (hpos : 0 < amountMinor)
    (hinsert : ∀ row ∈ db.rows, row.reference_no ≠ "A" ++ String.mk (uuidStr.toList.take 10)) :
    ∃ db' tx qr,
      GenerateQR db uuidStr now merchantId partnerRef amountMinor currency
        = (db', .ok (tx, qr)) ∧
      tx.Status = StatusCreated ∧ tx.PaidDate = none ∧
      tx.MerchantID = merchantId ∧ tx.PartnerReferenceNo = partnerRef ∧
      tx.AmountValueMinor = amountMinor ∧ tx.Currency = currency ∧
      tx.ReferenceNo = "A" ++ String.mk (uuidStr.toList.take 10) ∧
      qr = "00020101021226620015" ++ tx.ReferenceNo ∧
      tx.ReferenceNo.toList <:+ qr.toList := by
  have hany : db.rows.any (fun row =>
      decide (row.reference_no = "A" ++ String.mk (uuidStr.toList.take 10))) = false := by
    rw [List.any_eq_false]
    intro row hmem
    simpa using hinsert row hmem
  refine ⟨{ rows := db.rows ++ [{
        id := db.seq + 1
        reference_no := "A" ++ String.mk (uuidStr.toList.take 10)
        partner_reference_no := partnerRef
        merchant_id := merchantId
        amount_value_minor := amountMinor
        currency := currency
        status := StatusCreated
        transaction_date := FormatRFC3339Nano now.UTC
        paid_date := none }], seq := db.seq + 1 },
    { ID := 0
      ReferenceNo := "A" ++ String.mk (uuidStr.toList.take 10)
      PartnerReferenceNo := partnerRef
      MerchantID := merchantId
      AmountValueMinor := amountMinor
      Currency := currency
      Status := StatusCreated
      TransactionDate := now
      PaidDate := none },
    "00020101021226620015" ++ ("A" ++ String.mk (uuidStr.toList.take 10)),
    ?_, rfl, rfl, rfl, rfl, rfl, rfl, rfl, rfl, ?_⟩
  · unfold GenerateQR InsertTransaction
    rw [if_neg (by omega)]
    simp only [hany]
    rfl
  · simp only [String.toList, String.data_append]
    exact List.suffix_append _ _

/-- C7 at the inputs of the specification: amount 150000, currency `"IDR"`. -/
theorem GenerateQR_creates_witness :
    ∃ db' tx qr,
      GenerateQR ⟨[], 0⟩ "123e4567-e89b-12d3-a456-426614174000" creationTime
        "M-1" "P-1" 150000 "IDR" = (db', .ok (tx, qr)) ∧
      tx.Status = StatusCreated ∧ tx.PaidDate = none ∧
      tx.MerchantID = "M-1" ∧ tx.PartnerReferenceNo = "P-1" ∧
      tx.AmountValueMinor = 150000 ∧ tx.Currency = "IDR" ∧
      tx.ReferenceNo
        = "A" ++ String.mk ("123e4567-e89b-12d3-a456-426614174000".toList.take 10) ∧
      qr = "00020101021226620015" ++ tx.ReferenceNo ∧
      tx.ReferenceNo.toList <:+ qr.toList :=
  GenerateQR_creates ⟨[], 0⟩ "123e4567-e89b-12d3-a456-426614174000" creationTime
    "M-1" "P-1" 150000 "IDR" (by decide) (by simp)

/-! ## Theorems: repository -/

/-- C8, as the claim states it, fails: an update without a paid time on a row that has a
paid date stores `NULL`, the recorded paid date is gone. -/
theorem UpdatePaymentStatus_nil_clears_paidDate :
    paidRow.paid_date = some "2023-11-14T22:14:20Z" ∧
    UpdatePaymentStatus ⟨[paidRow], 1⟩ "A123e4567-e" StatusPending none
      = (⟨[{ paidRow with status := StatusPending, paid_date := none }], 1⟩, .ok ()) := by
  decide

/-- C8, amended: on a store with a row matching `ref`, `UpdatePaymentStatus` succeeds and
sets the row's status and its paid date to the values given, the paid time being stored as
its UTC text, from which a time with a UTC year within `0000..9999` is read back, and a
missing paid time being stored as `NULL` (`none`), so that a previously recorded paid date
is cleared; all other columns and all other rows stay as they were. -/
theorem UpdatePaymentStatus_sets_both (db : DB) (ref : String) (s : TxStatus)
    (paid : Option Time) (h : ∃ row ∈ db.rows, row.reference_no = ref) :
    (UpdatePaymentStatus db ref s paid).2 = .ok () ∧
    List.Forall₂ (RowUpdated ref s (paid.map FormatRFC3339Nano)) db.rows
      (UpdatePaymentStatus db ref s paid).1.rows ∧
    (∀ new ∈ (UpdatePaymentStatus db ref s paid).1.rows,
      new.reference_no = ref →
        new.status = s ∧ new.paid_date = paid.map FormatRFC3339Nano) ∧
    (∀ t, paid = some t → t.Valid → 0 ≤ t.year → t.year ≤ 9999 →
      ParseRFC3339Nano (FormatRFC3339Nano t) = some t) := by
  refine ⟨UpdatePaymentStatus_result_of_match db ref s paid h,
    (UpdatePaymentStatus_rows db ref s paid).1, ?_,
    fun t _ hv h0 h1 => Parse_Format t hv ⟨h0, h1⟩⟩
  intro new hnew href
  obtain ⟨old, -, hrel⟩ :=
    forall₂_mem_right (UpdatePaymentStatus_rows db ref s paid).1 hnew
  by_cases hold : old.reference_no = ref
  · exact ⟨(hrel.1 hold).1, (hrel.1 hold).2.1⟩
  · have heq := hrel.2 hold
    rw [heq] at href
    exact absurd href hold

/-- C8, amended, at a concrete store. -/
theorem UpdatePaymentStatus_sets_both_witness :
    (UpdatePaymentStatus ⟨[paidRow], 1⟩ "A123e4567-e" StatusPending none).2 = .ok () ∧
    List.Forall₂ (RowUpdated "A123e4567-e" StatusPending none) [paidRow]
      (UpdatePaymentStatus ⟨[paidRow], 1⟩ "A123e4567-e" StatusPending none).1.rows ∧
    (∀ new ∈ (UpdatePaymentStatus ⟨[paidRow], 1⟩ "A123e4567-e" StatusPending none).1.rows,
      new.reference_no = "A123e4567-e" →
        new.status = StatusPending ∧ new.paid_date = none) :=
  ⟨(UpdatePaymentStatus_sets_both ⟨[paidRow], 1⟩ "A123e4567-e" StatusPending none
      ⟨paidRow, by decide, by decide⟩).1,
    (UpdatePaymentStatus_sets_both ⟨[paidRow], 1⟩ "A123e4567-e" StatusPending none
      ⟨paidRow, by decide, by decide⟩).2.1,
    (UpdatePaymentStatus_sets_both ⟨[paidRow], 1⟩ "A123e4567-e" StatusPending none
      ⟨paidRow, by decide, by decide⟩).2.2.1⟩

/-- C9 (defect in the code): an update whose reference matches no row leaves the store
unchanged but returns `sql.ErrNoRows`, which is not `repository.ErrNotFound`; the error
mapping of the payment-callback handler answers it with 500, whereas the absent reference
detected by the lookup of `PaymentCallback` is `repository.ErrNotFound` and is answered
with 404. -/
theorem UpdatePaymentStatus_no_row_returns_sqlErrNoRows :
    UpdatePaymentStatus ⟨[paidRow], 1⟩ "Aunknown" StatusSuccess none
      = (⟨[paidRow], 1⟩, .error .sqlErrNoRows) ∧
    Err.sqlErrNoRows ≠ Err.ErrNotFound ∧
    callbackErrorStatus .sqlErrNoRows = 500 ∧
    (PaymentCallback ⟨[paidRow], 1⟩ "Aunknown" StatusSuccess none).2 = .error .ErrNotFound ∧
    callbackErrorStatus .ErrNotFound = 404 := by
  decide

/-! ## Auxiliary lemmas: rendering of minor units -/

lemma toDigitsCore_spec (fuel : Nat) : ∀ (n : Nat) (ds : List Char), n < fuel →
    ∃ ps, Nat.toDigitsCore 10 fuel n ds = ps ++ ds ∧ ps ≠ [] ∧ (∀ c ∈ ps, isDigit c) ∧
      digitsValue ps = n := by
  induction fuel with
  | zero => intro n ds h; omega
  | succ fuel ih =>
    intro n ds h
    have hd : isDigit (Nat.digitChar (n % 10)) ∧ (Nat.digitChar (n % 10)).toNat - 48 = n % 10 :=
      digitChar_spec ⟨n % 10, Nat.mod_lt n (by decide)⟩
    rw [Nat.toDigitsCore]
    by_cases h0 : n / 10 = 0
    · rw [if_pos h0]
      refine ⟨[Nat.digitChar (n % 10)], rfl, by simp, ?_, ?_⟩
      · intro c hc
        rw [List.mem_singleton.mp hc]
        exact hd.1
      · have := digitsValue_snoc [] (Nat.digitChar (n % 10))
        simp only [List.nil_append] at this
        rw [this, hd.2]
        have : digitsValue [] = 0 := rfl
        rw [this]
        omega
    · rw [if_neg h0]
      obtain ⟨ps, hps, -, hdig, hval⟩ := ih (n / 10) (Nat.digitChar (n % 10) :: ds) (by omega)
      refine ⟨ps ++ [Nat.digitChar (n % 10)], ?_, by simp, ?_, ?_⟩
      · rw [hps]; simp
      · intro c hc
        rcases List.mem_append.mp hc with h1 | h1
        · exact hdig c h1
        · rw [List.mem_singleton.mp h1]; exact hd.1
      · rw [digitsValue_snoc, hval, hd.2]
        omega

lemma repr_spec (n : Nat) :
    ∃ ps, Nat.repr n = String.mk ps ∧ ps ≠ [] ∧ (∀ c ∈ ps, isDigit c) ∧ digitsValue ps = n := by
  obtain ⟨ps, h1, h2, h3, h4⟩ := toDigitsCore_spec (n + 1) n [] (by omega)
  refine ⟨ps, ?_, h2, h3, h4⟩
  unfold Nat.repr Nat.toDigits
  rw [h1, List.append_nil]
  rfl

lemma twoDigits_spec : ∀ n : Fin 100,
    twoDigits (n.val : Int) = String.mk [Nat.digitChar (n.val / 10), Nat.digitChar (n.val % 10)] := by
  decide

lemma formatMinorToString_of_natAbs (m : Int) (h : minInt64 < m) :
    formatMinorToString m
      = (if m < 0 then "-" else "") ++ Nat.repr (m.natAbs / 100) ++ "."
          ++ String.mk [Nat.digitChar (m.natAbs % 100 / 10), Nat.digitChar (m.natAbs % 100 % 10)] := by
  have hminor : (if m < 0 then wrapInt64 (-m) else m) = (m.natAbs : Int) := by
    unfold minInt64 at h
    by_cases hm : m < 0
    · rw [if_pos hm]
      unfold wrapInt64
      omega
    · rw [if_neg hm]
      omega
  have hq : Int.tdiv (m.natAbs : Int) 100 = ((m.natAbs / 100 : Nat) : Int) := by
    rw [Int.tdiv_eq_ediv (Int.ofNat_nonneg _) (by decide)]
    rfl
  have hr : Int.tmod (m.natAbs : Int) 100 = ((m.natAbs % 100 : Nat) : Int) := by
    rw [Int.tmod_eq_emod (Int.ofNat_nonneg _) (by decide)]
    rfl
  have hfmt : FormatInt ((m.natAbs / 100 : Nat) : Int) = Nat.repr (m.natAbs / 100) := by
    unfold FormatInt
    rw [if_neg (by omega), Int.natAbs_ofNat]
  have htwo := twoDigits_spec ⟨m.natAbs % 100, Nat.mod_lt _ (by decide)⟩
  simp only [] at htwo
  unfold formatMinorToString
  simp only [hminor, hq, hr, hfmt, htwo]

/-- For every amount above the smallest `int64` the rendering is an optional `-` (present
exactly for a negative amount), one or more digits, a point and two digits, and integer and
fractional digits together spell the absolute value of the amount. -/
lemma formatMinorToString_shape (m : Int) (h : minInt64 < m) :
    ∃ ps d1 d2, ps ≠ [] ∧ (∀ c ∈ ps, isDigit c) ∧ isDigit d1 ∧ isDigit d2 ∧
      formatMinorToString m
        = String.mk ((if m < 0 then ['-'] else []) ++ ps ++ ['.', d1, d2]) ∧
      digitsValue ps * 100 + digitsValue [d1, d2] = m.natAbs := by
  obtain ⟨ps, hps, hne, hdig, hval⟩ := repr_spec (m.natAbs / 100)
  have h1 := digitChar_spec ⟨m.natAbs % 100 / 10, by omega⟩
  have h2 := digitChar_spec ⟨m.natAbs % 100 % 10, by omega⟩
  refine ⟨ps, Nat.digitChar (m.natAbs % 100 / 10), Nat.digitChar (m.natAbs % 100 % 10),
    hne, hdig, h1.1, h2.1, ?_, ?_⟩
  · rw [formatMinorToString_of_natAbs m h, hps]
    apply String.ext
    by_cases hm : m < 0
    · simp only [if_pos hm, String.data_append]
      simp
    · simp only [if_neg hm, String.data_append]
      simp
  · have e : digitsValue [Nat.digitChar (m.natAbs % 100 / 10), Nat.digitChar (m.natAbs % 100 % 10)]
        = ((Nat.digitChar (m.natAbs % 100 / 10)).toNat - 48) * 10
          + ((Nat.digitChar (m.natAbs % 100 % 10)).toNat - 48) := by
      unfold digitsValue
      simp only [List.foldl_cons, List.foldl_nil, Nat.zero_mul, Nat.zero_add]
    have e1 : (Nat.digitChar (m.natAbs % 100 / 10)).toNat - 48 = m.natAbs % 100 / 10 := h1.2
    have e2 : (Nat.digitChar (m.natAbs % 100 % 10)).toNat - 48 = m.natAbs % 100 % 10 := h2.2
    rw [e, hval, e1, e2]
    omega

/-! ## Theorems: rendering of minor units -/

/-- C10 (defect in the code): for the smallest `int64` the negation overflows, the amount
stays negative, and the rendering has two minus signs in front and one inside the
fractional part; it is not of the form sign, digits, point, two digits. -/
theorem formatMinorToString_minInt64 :
    formatMinorToString minInt64 = "--92233720368547758.0-8" := by
  decide


/-! ## Auxiliary lemmas: amount codec -/

lemma floor_toRat_mul_100 (r : BigRat) :
    ⌊r.toRat * 100⌋ = (r.num * 100) / (r.den : Int) := by
  unfold BigRat.toRat
  rw [← Rat.floor_intCast_div_natCast]
  congr 1
  push_cast
  ring

lemma parseAmountToMinor_of_parse (s : String) (r : BigRat) (h : RatSetString s = some r) :
    parseAmountToMinor s = .ok (bigInt64 ⌊r.toRat * 100⌋) := by
  have hden := RatSetString_den_pos s r h
  have hden' : 0 < r.den * 1 := by omega
  unfold parseAmountToMinor
  rw [h]
  simp only []
  congr 2
  have hpos : (0 : Int) < ((r.Mul ⟨100, 1⟩).den : Int) := by
    unfold BigRat.Mul
    exact_mod_cast norm_den_pos _ _ hden'
  rw [bigDiv_eq_ediv _ _ hpos, ← Rat.floor_intCast_div_natCast]
  congr 1
  have := norm_toRat (r.num * 100) (r.den * 1) hden'
  unfold BigRat.toRat at this ⊢
  unfold BigRat.Mul
  rw [this]
  push_cast
  ring

/-! ## Theorems: amount codec, rounding -/

/-- C4, amended: when the input parses to the rational `q` and the floor of `q * 100` fits
an `int64`, `parseAmountToMinor` returns that floor, the Euclidean quotient of the numerator
by the positive denominator of `q * 100`; for `q ≥ 0` this is the quotient truncated toward
zero, so fractional minor units are discarded and never rounded up. -/
theorem parseAmountToMinor_floor (s : String) (r : BigRat)
    (hparse : RatSetString s = some r)
    (hrange : minInt64 ≤ ⌊r.toRat * 100⌋ ∧ ⌊r.toRat * 100⌋ ≤ maxInt64) :
    parseAmountToMinor s = .ok ⌊r.toRat * 100⌋ ∧
    (0 ≤ r.toRat →
      ⌊r.toRat * 100⌋ = Int.tdiv (r.toRat * 100).num ((r.toRat * 100).den : Int)) := by
  refine ⟨?_, ?_⟩
  · rw [parseAmountToMinor_of_parse s r hparse, bigInt64_of_range _ hrange]
  · intro hq
    have hq' : 0 ≤ r.toRat * 100 := by positivity
    rw [Int.tdiv_eq_ediv (Rat.num_nonneg.mpr hq') (Int.ofNat_nonneg _)]
    exact Rat.floor_def' _

/-- C4, amended, at `"10.999"`, `"1.005"` and `"-1.005"`. -/
theorem parseAmountToMinor_floor_witness :
    parseAmountToMinor "10.999" = .ok 1099 ∧ parseAmountToMinor "1.005" = .ok 100 ∧
    parseAmountToMinor "-1.005" = .ok (-101) := by
  have h1 := (parseAmountToMinor_floor "10.999" ⟨10999, 1000⟩ (by decide)
    (by rw [floor_toRat_mul_100]; decide)).1
  have h2 := (parseAmountToMinor_floor "1.005" ⟨201, 200⟩ (by decide)
    (by rw [floor_toRat_mul_100]; decide)).1
  have h3 := (parseAmountToMinor_floor "-1.005" ⟨-201, 200⟩ (by decide)
    (by rw [floor_toRat_mul_100]; decide)).1
  rw [floor_toRat_mul_100] at h1 h2 h3
  exact ⟨h1, h2, h3⟩

/-- C4, as the claim states it, fails: `"-1.005"` parses to `-201/200`, the code returns
`-101` (the floor of `-100.5`), while the quotient of numerator by denominator truncated
toward zero is `-100`. -/
theorem parseAmountToMinor_floors_negative :
    RatSetString "-1.005" = some ⟨-201, 200⟩ ∧
    parseAmountToMinor "-1.005" = .ok (-101) ∧
    Int.tdiv ((BigRat.mk (-201) 200).Mul ⟨100, 1⟩).num
      ((BigRat.mk (-201) 200).Mul ⟨100, 1⟩).den = -100 := by
  decide

/-! ## Auxiliary lemmas: scanning a decimal numeral -/

lemma isDigit_ne {c d : Char} (hc : isDigit c) (hd : ¬ isDigit d) : c ≠ d := by
  rintro rfl
  exact hd hc

lemma scanDigit_of_isDigit {c : Char} (hc : isDigit c) : scanDigit c = c.toNat - 48 := by
  unfold scanDigit
  unfold isDigit at hc
  rw [if_pos hc]

lemma scanLoop_digit (st : ScanState) (c : Char) (rest : List Char) (hc : isDigit c) :
    scanLoop 10 st (c :: rest)
      = scanLoop 10 { st with prev := .digit, count := st.count + 1,
                              z := st.z * 10 + (c.toNat - 48) } rest := by
  have h1 : c ≠ '.' := isDigit_ne hc (by decide)
  have h2 : c ≠ '_' := isDigit_ne hc (by decide)
  have h3 : ¬ (c.toNat - 48 ≥ 10) := by
    unfold isDigit at hc
    omega
  rw [scanLoop]
  simp only [h1, false_and, if_false, h2, h3, scanDigit_of_isDigit hc]

lemma scanLoop_digits (ds : List Char) (hds : ∀ c ∈ ds, isDigit c) :
    ∀ (z count : Nat) (dp : Option Nat) (prev : Prev) (inv fo : Bool) (rest : List Char),
    scanLoop 10 ⟨z, count, dp, prev, inv, fo⟩ (ds ++ rest)
      = scanLoop 10 ⟨ds.foldl (fun acc c => acc * 10 + (c.toNat - 48)) z, count + ds.length, dp,
          if ds = [] then prev else .digit, inv, fo⟩ rest := by
  induction ds with
  | nil => intro z count dp prev inv fo rest; rfl
  | cons c ds ih =>
    intro z count dp prev inv fo rest
    have hc : isDigit c := hds c (List.mem_cons_self c ds)
    have hds' : ∀ c ∈ ds, isDigit c := fun x hx => hds x (List.mem_cons_of_mem c hx)
    rw [List.cons_append, scanLoop_digit _ _ _ hc]
    simp only []
    rw [ih hds']
    simp only [List.foldl_cons, List.length_cons, if_neg (List.cons_ne_nil c ds), ite_self]
    congr 2
    omega

lemma cutSlash_none (cs : List Char) (h : ∀ c ∈ cs, c ≠ '/') : cutSlash cs = none := by
  induction cs with
  | nil => rfl
  | cons c cs ih =>
    have hc : c ≠ '/' := h c (List.mem_cons_self c cs)
    have hcs : ∀ x ∈ cs, x ≠ '/' := fun x hx => h x (List.mem_cons_of_mem c hx)
    rw [cutSlash, if_neg hc, ih hcs]
    rfl

lemma scanLoop_nil (b : Nat) (st : ScanState) : scanLoop b st [] = (st, []) := by
  rw [scanLoop]

lemma scanLoop_point (z count : Nat) (dp : Option Nat) (prev : Prev) (inv : Bool)
    (rest : List Char) :
    scanLoop 10 ⟨z, count, dp, prev, inv, true⟩ ('.' :: rest)
      = scanLoop 10 ⟨z, count, some count, .other, inv || decide (prev = .sep), false⟩ rest := by
  rw [scanLoop]
  simp only [true_and, if_true]

lemma scanStart_of_plain (body : List Char) (h : ∀ c ∈ body, isDigit c ∨ c = '.') :
    ∃ st0 s0, scanStart true body = (10, .noPrefix, st0, s0) ∧
      scanLoop 10 st0 s0 = scanLoop 10 ⟨0, 0, none, .other, false, true⟩ body := by
  cases body with
  | nil => exact ⟨_, _, rfl, rfl⟩
  | cons c t =>
    by_cases hc : c = '0'
    · subst hc
      cases t with
      | nil =>
        refine ⟨_, _, rfl, ?_⟩
        rw [scanLoop_digit _ _ _ (by decide)]
        rfl
      | cons ch rest =>
        have hch : isDigit ch ∨ ch = '.' :=
          h ch (List.mem_cons_of_mem _ (List.mem_cons_self ch rest))
        have hne : ∀ x : Char, ¬ isDigit x → x ≠ '.' → ch ≠ x := by
          intro x hx hx'
          rcases hch with hd | hd
          · exact isDigit_ne hd hx
          · rw [hd]; exact fun e => hx' e.symm
        have hb : ¬ (ch = 'b' ∨ ch = 'B') := by
          rintro (e | e)
          · exact hne 'b' (by decide) (by decide) e
          · exact hne 'B' (by decide) (by decide) e
        have ho : ¬ (ch = 'o' ∨ ch = 'O') := by
          rintro (e | e)
          · exact hne 'o' (by decide) (by decide) e
          · exact hne 'O' (by decide) (by decide) e
        have hx : ¬ (ch = 'x' ∨ ch = 'X') := by
          rintro (e | e)
          · exact hne 'x' (by decide) (by decide) e
          · exact hne 'X' (by decide) (by decide) e
        refine ⟨⟨0, 1, none, .digit, false, true⟩, ch :: rest, ?_, ?_⟩
        · unfold scanStart
          simp only [if_true, if_neg hb, if_neg ho, if_neg hx]
        · rw [scanLoop_digit _ '0' _ (by decide)]
          rfl
    · refine ⟨_, _, ?_, rfl⟩
      unfold scanStart
      simp only [if_neg hc]

lemma natScan_of_loop (body : List Char) (h : ∀ c ∈ body, isDigit c ∨ c = '.')
    (st : ScanState)
    (hloop : scanLoop 10 ⟨0, 0, none, .other, false, true⟩ body = (st, []))
    (hcount : st.count ≠ 0) (hinv : st.invalSep = false) (hprev : st.prev ≠ .sep) :
    natScan true body
      = some (st.z, 10,
          (match st.dp with
            | some dp => (dp : Int) - (st.count : Int)
            | none => (st.count : Int)), []) := by
  obtain ⟨st0, s0, hstart, hsame⟩ := scanStart_of_plain body h
  unfold natScan
  rw [hstart]
  simp only []
  rw [hsame, hloop]
  simp only [hinv, hprev, decide_False, Bool.or_self, if_neg hcount, Bool.false_eq_true, if_false]

lemma natScan_decimal (d : Decimal) (hwf : d.WellFormed) :
    natScan true d.body
      = some (digitsValue (d.intPart ++ d.fracPart), 10,
          (if d.point then -(d.fracPart.length : Int) else (d.intPart.length : Int)), []) := by
  obtain ⟨hip, hfp, hne, hpt⟩ := hwf
  have hbody : ∀ c ∈ d.body, isDigit c ∨ c = '.' := by
    intro c hc
    unfold Decimal.body at hc
    rcases List.mem_append.mp hc with h | h
    · exact Or.inl (hip c h)
    · split at h
      · rcases List.mem_cons.mp h with h | h
        · exact Or.inr h
        · exact Or.inl (hfp c h)
      · exact absurd h (List.not_mem_nil c)
  cases hp : d.point with
  | false =>
    have hfp0 : d.fracPart = [] := hpt hp
    have hip0 : d.intPart ≠ [] := by
      intro e; rw [e, hfp0] at hne; exact hne rfl
    have hloop : scanLoop 10 ⟨0, 0, none, .other, false, true⟩ d.body
        = (⟨digitsValue d.intPart, 0 + d.intPart.length, none, .digit, false, true⟩, []) := by
      unfold Decimal.body
      rw [hp]
      simp only [Bool.false_eq_true, if_false]
      rw [scanLoop_digits _ hip, scanLoop_nil, if_neg hip0]
      rfl
    have hlen : d.intPart.length ≠ 0 := fun e => hip0 (List.length_eq_zero.mp e)
    rw [natScan_of_loop d.body hbody _ hloop (by simpa using hlen) rfl (by simp)]
    simp only [hfp0, List.append_nil, Bool.false_eq_true, if_false, Nat.zero_add]
  | true =>
    have hloop : scanLoop 10 ⟨0, 0, none, .other, false, true⟩ d.body
        = (⟨digitsValue (d.intPart ++ d.fracPart), 0 + d.intPart.length + d.fracPart.length,
            some (0 + d.intPart.length), if d.fracPart = [] then .other else .digit,
            false, false⟩, []) := by
      unfold Decimal.body
      rw [hp]
      simp only [if_true]
      rw [scanLoop_digits _ hip, scanLoop_point]
      conv_lhs => rw [← List.append_nil d.fracPart]
      rw [scanLoop_digits _ hfp, scanLoop_nil]
      have hsep : (if d.intPart = [] then Prev.other else Prev.digit) ≠ Prev.sep := by
        split <;> decide
      simp only [hsep, decide_False, Bool.or_self, digitsValue, List.foldl_append]
    have hlen : d.intPart.length + d.fracPart.length ≠ 0 := by
      intro e
      have h1 : d.intPart = [] := List.length_eq_zero.mp (by omega)
      have h2 : d.fracPart = [] := List.length_eq_zero.mp (by omega)
      rw [h1, h2] at hne
      exact hne rfl
    rw [natScan_of_loop d.body hbody _ hloop (by simpa using hlen) rfl
      (by simp only []; split <;> decide)]
    simp only [if_true, Nat.zero_add]
    congr 4
    push_cast
    omega

lemma applyExponents_decimal (M : Nat) (fcount : Int) (k : Nat) (hk : k ≤ 1000000)
    (h : (0 ≤ fcount ∧ k = 0) ∨ (fcount = -(k : Int) ∧ 0 < k)) :
    ∃ B : Nat, applyExponents M 10 fcount 0 10 = some (M, B) ∧ 0 < B ∧
      (B : ℚ) = (10 : ℚ) ^ k := by
  rcases h with ⟨hf, hk0⟩ | ⟨hf, hkpos⟩
  · subst hk0
    refine ⟨1, ?_, Nat.one_pos, by simp⟩
    have hr : radixExponents 10 fcount = (0, 0) := by
      unfold radixExponents
      rw [if_neg (by omega)]
    unfold applyExponents
    rw [hr]
    rfl
  · subst hf
    refine ⟨5 ^ k <<< k, ?_, ?_, ?_⟩
    · have hr : radixExponents 10 (-(k : Int)) = (-(k : Int), -(k : Int)) := by
        unfold radixExponents
        rw [if_pos (by omega)]
        rfl
      have hw : wrapInt64 (-(k : Int) + 0) = -(k : Int) := by
        unfold wrapInt64; omega
      have hw' : wrapInt64 (- -(k : Int)) = (k : Int) := by
        unfold wrapInt64; omega
      have ha : addExponent (-(k : Int), -(k : Int)) 0 10 = (-(k : Int), -(k : Int)) := by
        unfold addExponent
        simp only [if_true, hw]
      have h5 : applyPow5 M (-(k : Int)) = some (M, 5 ^ k) := by
        unfold applyPow5
        rw [if_pos (by omega)]
        simp only []
        rw [if_pos (by omega : -(k : Int) < 0), hw', if_neg (by omega), if_neg (by omega),
          if_neg (by omega), Int.toNat_ofNat]
      have h2 : applyPow2 M (5 ^ k) (-(k : Int)) = some (M, 5 ^ k <<< k) := by
        unfold applyPow2
        rw [if_neg (by omega), if_neg (by omega), if_pos (by omega), neg_neg, Int.toNat_ofNat]
      unfold applyExponents
      rw [hr, ha]
      simp only [h5, h2]
    · rw [Nat.shiftLeft_eq]
      positivity
    · rw [Nat.shiftLeft_eq]
      push_cast
      rw [← mul_pow]
      norm_num

lemma Decimal.body_chars (d : Decimal) (hwf : d.WellFormed) :
    ∀ c ∈ d.body, isDigit c ∨ c = '.' := by
  obtain ⟨hip, hfp, -, -⟩ := hwf
  intro c hc
  unfold Decimal.body at hc
  rcases List.mem_append.mp hc with h | h
  · exact Or.inl (hip c h)
  · split at h
    · rcases List.mem_cons.mp h with h | h
      · exact Or.inr h
      · exact Or.inl (hfp c h)
    · exact absurd h (List.not_mem_nil c)

lemma Decimal.body_ne_nil (d : Decimal) (hwf : d.WellFormed) : d.body ≠ [] := by
  obtain ⟨-, -, hne, hpt⟩ := hwf
  unfold Decimal.body
  intro e
  obtain ⟨h1, h2⟩ := List.append_eq_nil.mp e
  cases hp : d.point with
  | false => rw [h1, hpt hp] at hne; exact hne rfl
  | true => rw [hp] at h2; simp at h2

lemma plain_ne {c : Char} (x : Char) (h : isDigit c ∨ c = '.') (hx : ¬ isDigit x)
    (hx' : x ≠ '.') : c ≠ x := by
  rcases h with hd | hd
  · exact isDigit_ne hd hx
  · rw [hd]; exact fun e => hx' e.symm

lemma scanSign_decimal (d : Decimal) (hwf : d.WellFormed) :
    scanSign d.text.toList = some (false, d.body) := by
  have hbody := d.body_chars hwf
  have hne := d.body_ne_nil hwf
  show scanSign ((if d.plus then ['+'] else []) ++ d.body) = some (false, d.body)
  cases d.plus with
  | true => rfl
  | false =>
    simp only [Bool.false_eq_true, if_false, List.nil_append]
    cases hb : d.body with
    | nil => exact absurd hb hne
    | cons c t =>
      have hc : isDigit c ∨ c = '.' := hbody c (by rw [hb]; exact List.mem_cons_self c t)
      rw [scanSign, if_neg (plain_ne '-' hc (by decide) (by decide)),
        if_neg (plain_ne '+' hc (by decide) (by decide))]

lemma cutSlash_decimal (d : Decimal) (hwf : d.WellFormed) : cutSlash d.text.toList = none := by
  have hbody := d.body_chars hwf
  apply cutSlash_none
  intro c hc
  have hc' : c ∈ (if d.plus then ['+'] else []) ++ d.body := hc
  rcases List.mem_append.mp hc' with h | h
  · split at h
    · rw [List.mem_singleton.mp h]; decide
    · exact absurd h (List.not_mem_nil c)
  · exact plain_ne '/' (hbody c h) (by decide) (by decide)

lemma RatSetString_decimal (d : Decimal) (hwf : d.WellFormed)
    (hk : d.fracPart.length ≤ 1000000) :
    ∃ r, RatSetString d.text = some r ∧ r.toRat = d.value := by
  have hne : d.text.toList ≠ [] := by
    show (if d.plus then ['+'] else []) ++ d.body ≠ []
    intro e
    exact d.body_ne_nil hwf (List.append_eq_nil.mp e).2
  have hfc : (0 ≤ (if d.point then -(d.fracPart.length : Int) else (d.intPart.length : Int)) ∧
        d.fracPart.length = 0) ∨
      ((if d.point then -(d.fracPart.length : Int) else (d.intPart.length : Int))
        = -(d.fracPart.length : Int) ∧ 0 < d.fracPart.length) := by
    cases hp : d.point with
    | false =>
      left
      have := hwf.2.2.2 hp
      simp [this]
    | true =>
      rcases Nat.eq_zero_or_pos d.fracPart.length with h0 | h0
      · left; simp [h0]
      · right; exact ⟨by simp, h0⟩
  obtain ⟨B, happ, hB, hBq⟩ := applyExponents_decimal (digitsValue (d.intPart ++ d.fracPart))
    _ d.fracPart.length hk hfc
  have hscanExp : scanExponent [] = some (0, 10, []) := rfl
  by_cases hM : digitsValue (d.intPart ++ d.fracPart) = 0
  · refine ⟨BigRat.norm 0 1, ?_, ?_⟩
    · unfold RatSetString
      simp only [if_neg hne, cutSlash_decimal d hwf, scanSign_decimal d hwf,
        natScan_decimal d hwf, hscanExp, ne_eq, not_true_eq_false, if_false, hM, if_true]
    · rw [norm_toRat 0 1 Nat.one_pos]
      unfold Decimal.value
      rw [hM]
      simp
  · refine ⟨BigRat.norm (digitsValue (d.intPart ++ d.fracPart) : Int) B, ?_, ?_⟩
    · unfold RatSetString
      simp only [if_neg hne, cutSlash_decimal d hwf, scanSign_decimal d hwf,
        natScan_decimal d hwf, hscanExp, ne_eq, not_true_eq_false, if_false, hM, happ,
        Bool.false_eq_true]
    · rw [norm_toRat _ _ hB]
      unfold Decimal.value
      rw [hBq]
      push_cast
      rfl

lemma Decimal.value_mul_100 (d : Decimal) (hfrac : d.fracPart.length ≤ 2) :
    d.value * 100
      = ((digitsValue (d.intPart ++ d.fracPart) * 10 ^ (2 - d.fracPart.length) : Nat) : ℚ) := by
  unfold Decimal.value
  have h100 : (100 : ℚ) = 10 ^ d.fracPart.length * 10 ^ (2 - d.fracPart.length) := by
    rw [← pow_add, Nat.add_sub_cancel' hfrac]
    norm_num
  have hpos : (10 : ℚ) ^ d.fracPart.length ≠ 0 := by positivity
  rw [h100]
  push_cast
  field_simp
  ring

/-! ## Theorems: amount codec, exactness -/

/-- C3, amended: for a decimal numeral with at most two fractional digits that denotes a
non-negative value `v` with `v * 100` at most the largest `int64`, `parseAmountToMinor`
succeeds and returns exactly the integer `v * 100`. -/
theorem parseAmountToMinor_exact (d : Decimal) (hwf : d.WellFormed)
    (hfrac : d.fracPart.length ≤ 2) (hrange : d.value * 100 ≤ ((maxInt64 : Int) : ℚ)) :
    ∃ n : Int, parseAmountToMinor d.text = .ok n ∧ (n : ℚ) = d.value * 100 := by
  obtain ⟨r, hparse, hval⟩ := RatSetString_decimal d hwf (by omega)
  have hN := d.value_mul_100 hfrac
  generalize digitsValue (d.intPart ++ d.fracPart) * 10 ^ (2 - d.fracPart.length) = N at hN
  have hfloor : ⌊r.toRat * 100⌋ = (N : Int) := by
    rw [hval, hN]
    exact Int.floor_natCast N
  have hle : (N : Int) ≤ maxInt64 := by
    rw [hN] at hrange
    exact_mod_cast hrange
  refine ⟨(N : Int), ?_, ?_⟩
  · rw [parseAmountToMinor_of_parse _ _ hparse, hfloor,
      bigInt64_of_range _ ⟨by unfold minInt64; omega, hle⟩]
  · rw [hN]
    push_cast
    rfl

/-- C3, amended, at `"1500.25"`. -/
theorem parseAmountToMinor_exact_witness :
    ∃ n : Int, parseAmountToMinor "1500.25" = .ok n ∧
      (n : ℚ) = (Decimal.mk false "1500".toList true "25".toList).value * 100 :=
  parseAmountToMinor_exact ⟨false, "1500".toList, true, "25".toList⟩ (by decide) (by decide)
    (by
      rw [Decimal.value_mul_100 _ (by decide)]
      have h : digitsValue ("1500".toList ++ "25".toList) * 10 ^ (2 - "25".toList.length)
          = 150025 := by decide
      simp only [h]
      unfold maxInt64
      norm_num)

/-- C3, as the claim states it, fails: `"184467440737095516.21"` is a decimal numeral with
two fractional digits whose value times 100 is `2 ^ 64 + 5`; the code returns `5`. -/
theorem parseAmountToMinor_wraps_large :
    (Decimal.mk false "184467440737095516".toList true "21".toList).WellFormed ∧
    (Decimal.mk false "184467440737095516".toList true "21".toList).text
      = "184467440737095516.21" ∧
    (Decimal.mk false "184467440737095516".toList true "21".toList).value * 100
      = 18446744073709551621 ∧
    parseAmountToMinor "184467440737095516.21" = .ok 5 := by
  refine ⟨by decide, by decide, ?_, by decide⟩
  rw [Decimal.value_mul_100 _ (by decide)]
  have h : digitsValue ("184467440737095516".toList ++ "21".toList)
      * 10 ^ (2 - "21".toList.length) = 18446744073709551621 := by decide
  simp only [h]
  norm_num
end GoBackend
